import Mathlib

/-!
Verification development for the murmurations-viewer repository.

The discrete part embeds the graph-data reconciler of src/src/App.tsx
(the setData updater inside the App useEffect, getLinkKey,
getLinksFromRelationships, getTagNodesAndLinks, and the duplicate-name
merge), together with the data-fetcher wrappers (flatMurmurationsMap,
flatKumuMap and the Murmurations Test Index fetcher).

The real-valued part embeds the custom ForceGraph2D component
(simulationData conversion, draw, getNodeAtPosition, getLinkAtPosition,
the drag behavior) and the parts of the d3-force dependency that the
component relies on (node reinitialization with phyllotaxis placement,
the create-or-update simulation logic).

JavaScript conventions modelled explicitly:
  - a string field that may be undefined is Option String; JS truthiness
    treats undefined and the empty string as false;
  - object references that are mutated in place (the Person/Organization
    records shared between the seenNodeNames map, the raw data arrays and
    node payloads) are modelled as indices into an explicit record heap;
  - operations that would throw a TypeError (property access on
    undefined) return Except Unit; Except.error is a thrown exception.
-/

/-- JS string-or-undefined values: node ids, profile_url fields and the like. -/
abbrev JSStr := Option String

/-- JS truthiness of a string-or-undefined value: undefined and the empty
string are falsy, every other string is truthy. -/
def jsTruthy : JSStr → Bool
  | none => false
  | some s => s != ""

/-- String coercion applied inside template literals: undefined prints as
the string undefined. -/
def idToString : JSStr → String
  | some s => s
  | none => "undefined"

/-- A relationship entry of a Person/Organization record. -/
structure Relationship where
  predicate_url : String
  object_url : String
deriving DecidableEq

/-- Shared shape of Person and Organization records
(people_schema-v0.1.0 / organizations_schema-v1.0.0): exactly the fields
the reconciler reads or writes. -/
structure ProfileRec where
  name : String
  profile_url : JSStr
  primary_url : JSStr
  description : JSStr
  image : JSStr
  tags : Option (List String)
  relationships : Option (List Relationship)
  linked_schemas : Option (List String)
deriving DecidableEq

instance : Inhabited ProfileRec :=
  ⟨⟨"", none, none, none, none, none, none, none⟩⟩

/-- The SchemaOrg constants of src/src/schemas/index.ts. -/
def SchemaOrg.memberOf : String := "https://schema.org/memberOf"

def SchemaOrg.knows : String := "https://schema.org/knows"

def SchemaOrg.maintainer : String := "https://schema.org/maintainer"

def SchemaOrg.softwareRequirement : String := "https://schema.org/softwareRequirement"

/-- JS Set insertion followed by iteration yields the distinct elements in
first-insertion order; likewise Array.from(new Set(list)). -/
def jsSetDedup {α : Type} [DecidableEq α] (l : List α) : List α :=
  l.foldl (fun acc a => if a ∈ acc then acc else acc ++ [a]) []

/-- Record references: the heap index of a Person/Organization object.
Mutation of a shared record (the duplicate-name merge) is heap update. -/
abbrev PRef := Nat

/-- The record heap. -/
abbrev RecHeap := List ProfileRec

/-- Dereference a record. -/
def RecHeap.getP (h : RecHeap) (r : PRef) : ProfileRec := h.getD r default

/-- In-place mutation of a record. -/
def RecHeap.setP (h : RecHeap) (r : PRef) (p : ProfileRec) : RecHeap := h.set r p

/-- The three variants of the NodeData union of src/src/types.ts: person and
organization nodes carry a reference to their profile record, tag nodes
carry the tag string. -/
inductive NodeKind
  | person
  | organization
  | tag
deriving DecidableEq

/-- Payload of a NodeData value. -/
inductive NodePayload
  | profileRef (r : PRef)
  | tagStr (t : String)
deriving DecidableEq

def NodePayload.refOpt : NodePayload → Option PRef
  | .profileRef r => some r
  | .tagStr _ => none

/-- NodeData of src/src/types.ts. -/
structure NodeData where
  id : JSStr
  name : String
  kind : NodeKind
  networks : List String
  payload : NodePayload
deriving DecidableEq

/-- The closed set of link type tags. -/
inductive LinkTy
  | memberOf
  | knows
  | maintainer
  | softwareRequirement
  | tag
deriving DecidableEq

/-- The string value of the type field. -/
def LinkTy.str : LinkTy → String
  | .memberOf => "memberOf"
  | .knows => "knows"
  | .maintainer => "maintainer"
  | .softwareRequirement => "softwareRequirement"
  | .tag => "tag"

/-- A link endpoint as stored at runtime: a raw string id, a resolved
NodeData object, or undefined (what the non-null-asserted resolution
assigns when no node is found). -/
inductive LinkEnd
  | str (s : String)
  | node (n : NodeData)
  | undefined
deriving DecidableEq

/-- Conversion of a possibly-undefined string id into a link endpoint. -/
def endOfId : JSStr → LinkEnd
  | some s => .str s
  | none => .undefined

/-- LinkData of src/src/types.ts: source, target and the type tag. The
index / controlPoints bookkeeping fields added for the force-graph
workaround are not modelled; no claim mentions them. -/
structure LinkData where
  source : LinkEnd
  target : LinkEnd
  ty : LinkTy
deriving DecidableEq

/-- One endpoint contribution to the composite link key: a string endpoint
is used as is, a node endpoint contributes its id (coerced by the template
literal), and accessing .id on undefined throws. -/
def endKeyPart : LinkEnd → Except Unit String
  | .str s => .ok s
  | .node n => .ok (idToString n.id)
  | .undefined => .error ()

/-- getLinkKey of src/src/App.tsx lines 481-482: the composite
source-id/type/target-id key. -/
def getLinkKey (l : LinkData) : Except Unit String := do
  let s ← endKeyPart l.source
  let t ← endKeyPart l.target
  return s ++ "-" ++ l.ty.str ++ "-" ++ t

/-- One network entry of the rawData record: people, orgs and the active
flag (the editing flag is not read by the reconciler). -/
structure NetworkRaw where
  people : List PRef
  orgs : List PRef
  active : Bool
deriving DecidableEq

/-- The node filter radio state. -/
inductive NodeFilter
  | all
  | people
  | orgs
deriving DecidableEq

/-- The tags array of a list of records, in order, missing arrays skipped. -/
def tagsOfRecs (h : RecHeap) (rs : List PRef) : List String :=
  rs.flatMap (fun r => (h.getP r).tags.getD [])

/-- The distinct tags of a set of people and orgs, in first-occurrence
order (people first, then orgs, matching the two collection loops). -/
def knownTagsOf (h : RecHeap) (people orgs : List PRef) : List String :=
  jsSetDedup (tagsOfRecs h people ++ tagsOfRecs h orgs)

/-- The tag node built for a tag. -/
def tagNodeOf (network : String) (t : String) : NodeData :=
  { id := some ("tag:" ++ t), name := t, kind := .tag, networks := [network],
    payload := .tagStr t }

/-- The tag links of a list of records: one link per record-tag pair, from
the record profile_url to the tag id. -/
def tagLinksOf (h : RecHeap) (rs : List PRef) : List LinkData :=
  rs.flatMap (fun r =>
    ((h.getP r).tags.getD []).map (fun t =>
      ({ source := endOfId (h.getP r).profile_url, target := .str ("tag:" ++ t),
         ty := .tag } : LinkData)))

/-- getTagNodesAndLinks of src/src/App.tsx lines 81-136: collect the
distinct tags of the given people and orgs, build one tag node per tag and
one tag link per record-tag pair (people links first, then org links). -/
def getTagNodesAndLinks (h : RecHeap) (people orgs : List PRef) (network : String) :
    List NodeData × List LinkData :=
  ((knownTagsOf h people orgs).map (tagNodeOf network),
   tagLinksOf h people ++ tagLinksOf h orgs)

/-- Lookup in a JS Map built from a list of profile-url/record pairs: later
entries with an equal key overwrite earlier ones, and a lookup with a string
key never matches an undefined-keyed entry. -/
def urlMapGet (entries : List (JSStr × PRef)) (k : String) : Option PRef :=
  entries.foldl (fun acc e => if e.1 = some k then some e.2 else acc) none

/-- getLinksFromRelationships of src/src/App.tsx lines 27-78. -/
def getLinksFromRelationships (h : RecHeap) (people orgs : List PRef) : List LinkData :=
  let personMap := people.map (fun r => ((h.getP r).profile_url, r))
  let orgMap := orgs.map (fun r => ((h.getP r).profile_url, r))
  let personLinks := people.flatMap (fun pr =>
    ((h.getP pr).relationships.getD []).flatMap (fun rel =>
      if rel.predicate_url = SchemaOrg.memberOf then
        match urlMapGet orgMap rel.object_url with
        | some org => [{ source := endOfId (h.getP pr).profile_url,
                         target := endOfId (h.getP org).profile_url, ty := .memberOf }]
        | none => []
      else if rel.predicate_url = SchemaOrg.knows then
        match urlMapGet personMap rel.object_url with
        | some q => [{ source := endOfId (h.getP pr).profile_url,
                       target := endOfId (h.getP q).profile_url, ty := .knows }]
        | none => []
      else if rel.predicate_url = SchemaOrg.maintainer then
        match urlMapGet orgMap rel.object_url with
        | some org => [{ source := endOfId (h.getP pr).profile_url,
                         target := endOfId (h.getP org).profile_url, ty := .maintainer }]
        | none => []
      else []))
  let orgLinks := orgs.flatMap (fun orgr =>
    ((h.getP orgr).relationships.getD []).flatMap (fun rel =>
      if rel.predicate_url = SchemaOrg.softwareRequirement then
        match urlMapGet orgMap rel.object_url with
        | some o2 => [{ source := endOfId (h.getP orgr).profile_url,
                        target := endOfId (h.getP o2).profile_url,
                        ty := .softwareRequirement }]
        | none => []
      else []))
  personLinks ++ orgLinks

/-- One scalar step of the duplicate-name merge: the incoming value is
taken only when the existing one is falsy and the incoming one truthy. -/
def mergeScalar (e p : JSStr) : JSStr :=
  if !jsTruthy e && jsTruthy p then p else e

/-- One array step of the duplicate-name merge: when the incoming array is
present (an empty array is truthy), the result is
Array.from(new Set(existing ++ incoming)); otherwise the existing value is
kept. The JS Set on relationship objects deduplicates by reference;
value-level deduplication is used here, which agrees with it at the level
of element sets. -/
def mergeArr {α : Type} [DecidableEq α] (e p : Option (List α)) : Option (List α) :=
  match p with
  | some ts => some (jsSetDedup (e.getD [] ++ ts))
  | none => e

/-- The duplicate-name merge of src/src/App.tsx lines 520-537. The source
performs the field updates in sequence on the shared record; since every
step reads and writes only its own field, the result is the fieldwise
combination below. -/
def mergeRecord (existing p : ProfileRec) : ProfileRec :=
  { existing with
    profile_url := mergeScalar existing.profile_url p.profile_url,
    primary_url := mergeScalar existing.primary_url p.primary_url,
    description := mergeScalar existing.description p.description,
    image := mergeScalar existing.image p.image,
    tags := mergeArr existing.tags p.tags,
    relationships := mergeArr existing.relationships p.relationships,
    linked_schemas := mergeArr existing.linked_schemas p.linked_schemas }

/-- The mutable locals of one reconciliation pass of the App useEffect
(src/src/App.tsx lines 496-666). -/
structure PassState where
  heap : RecHeap
  seenNodeIDs : List JSStr
  seenLinkIDs : List String
  seenNodeNames : List (String × PRef)
  newNodesData : List NodeData
  newLinksData : List LinkData
deriving DecidableEq

/-- JS Map get on the seenNodeNames map. Keys are unique by construction,
so first-match lookup agrees with the map. -/
def namesGet (m : List (String × PRef)) (k : String) : Option PRef :=
  (m.find? (fun e => e.1 = k)).map (fun e => e.2)

/-- JS Map set on the seenNodeNames map: overwrite the binding if the key
is present, otherwise append. -/
def namesSet (m : List (String × PRef)) (k : String) (v : PRef) : List (String × PRef) :=
  if (m.find? (fun e => e.1 = k)).isSome then
    m.map (fun e => if e.1 = k then (k, v) else e)
  else m ++ [(k, v)]

/-- The person node pushed for a record. -/
def personNodeOf (h : RecHeap) (network : String) (r : PRef) : NodeData :=
  { id := (h.getP r).profile_url, name := (h.getP r).name, kind := .person,
    networks := [network], payload := .profileRef r }

/-- The organization node pushed for a record. -/
def orgNodeOf (h : RecHeap) (network : String) (r : PRef) : NodeData :=
  { id := (h.getP r).profile_url, name := (h.getP r).name, kind := .organization,
    networks := [network], payload := .profileRef r }

/-- The person branch of the reconciler loop (src/src/App.tsx lines
518-550): a person whose name was already seen is merged into the stored
record (mutating it through the shared reference) and produces no id and
no node; otherwise the person id is recorded and a node is pushed when the
id is not already live. -/
def processPerson (existingNodeIDs : List JSStr) (network : String)
    (st : PassState) (r : PRef) : PassState :=
  let p := st.heap.getP r
  match namesGet st.seenNodeNames p.name with
  | some er => { st with heap := st.heap.setP er (mergeRecord (st.heap.getP er) p) }
  | none =>
    let st1 := { st with
      seenNodeIDs := st.seenNodeIDs ++ [p.profile_url],
      seenNodeNames := namesSet st.seenNodeNames p.name r }
    if p.profile_url ∈ existingNodeIDs then st1
    else { st1 with newNodesData := st1.newNodesData ++ [personNodeOf st.heap network r] }

/-- The organization branch (src/src/App.tsx lines 553-565): orgs never
merge; the name binding is overwritten, the id recorded, and a node pushed
when the id is not already live. -/
def processOrg (existingNodeIDs : List JSStr) (network : String)
    (st : PassState) (r : PRef) : PassState :=
  let o := st.heap.getP r
  let st1 := { st with
    seenNodeNames := namesSet st.seenNodeNames o.name r,
    seenNodeIDs := st.seenNodeIDs ++ [o.profile_url] }
  if o.profile_url ∈ existingNodeIDs then st1
  else { st1 with newNodesData := st1.newNodesData ++ [orgNodeOf st.heap network r] }

/-- Membership test Set.has(link.source as string) on a set of ids: a
string endpoint matches its string, an undefined endpoint matches an
undefined member, an object endpoint matches nothing. -/
def endMemIds (e : LinkEnd) (ids : List JSStr) : Bool :=
  match e with
  | .str s => some s ∈ ids
  | .undefined => none ∈ ids
  | .node _ => false

/-- The tag node step (src/src/App.tsx lines 573-578): record the id, push
the node when not already live (note: the guard consults only the existing
ids, not the ids seen in this pass). -/
def processTagNode (existingNodeIDs : List JSStr) (st : PassState) (n : NodeData) : PassState :=
  let st1 := { st with seenNodeIDs := st.seenNodeIDs ++ [n.id] }
  if n.id ∈ existingNodeIDs then st1
  else { st1 with newNodesData := st1.newNodesData ++ [n] }

/-- The tag link step (src/src/App.tsx lines 581-592): a link is accepted
when both endpoints are visible (seen in this pass or already live); its
key is computed (which throws on an undefined endpoint) and the link is
pushed when the key is not already live. -/
def processTagLink (existingNodeIDs : List JSStr) (existingLinksIDs : List String)
    (st : PassState) (l : LinkData) : Except Unit PassState :=
  let sourceVisible := endMemIds l.source st.seenNodeIDs || endMemIds l.source existingNodeIDs
  let targetVisible := endMemIds l.target st.seenNodeIDs || endMemIds l.target existingNodeIDs
  if sourceVisible && targetVisible then do
    let key ← getLinkKey l
    let st1 := { st with seenLinkIDs := st.seenLinkIDs ++ [key] }
    if key ∈ existingLinksIDs then pure st1
    else pure { st1 with newLinksData := st1.newLinksData ++ [l] }
  else pure st

/-- The relationship link step (src/src/App.tsx lines 614-620). -/
def processRelLink (existingLinksIDs : List String)
    (st : PassState) (l : LinkData) : Except Unit PassState := do
  let key ← getLinkKey l
  let st1 := { st with seenLinkIDs := st.seenLinkIDs ++ [key] }
  if key ∈ existingLinksIDs then pure st1
  else pure { st1 with newLinksData := st1.newLinksData ++ [l] }

/-- One network iteration of the reconciler (src/src/App.tsx lines
509-594): skip inactive networks, process filtered people then filtered
orgs, then, when tags are shown, process the tag nodes and links generated
from the unfiltered people and orgs of the network. -/
def networkPhase (existingNodeIDs : List JSStr) (existingLinksIDs : List String)
    (nodeFilter : NodeFilter) (showTags : Bool)
    (st : PassState) (entry : String × NetworkRaw) : Except Unit PassState :=
  let network := entry.1
  let raw := entry.2
  if !raw.active then pure st else
  let filteredPeople := if nodeFilter = .orgs then [] else raw.people
  let filteredOrgs := if nodeFilter = .people then [] else raw.orgs
  let st1 := filteredPeople.foldl (processPerson existingNodeIDs network) st
  let st2 := filteredOrgs.foldl (processOrg existingNodeIDs network) st1
  if showTags then
    let td := getTagNodesAndLinks st2.heap raw.people raw.orgs network
    let st3 := td.1.foldl (processTagNode existingNodeIDs) st2
    td.2.foldlM (processTagLink existingNodeIDs existingLinksIDs) st3
  else pure st2

/-- JS strict equality n.id === link.target as used in the resolution loop:
a string id equals a string endpoint with the same characters, undefined
equals an undefined endpoint, and nothing equals an object endpoint. -/
def jsIdEqEnd (id : JSStr) (e : LinkEnd) : Bool :=
  match id, e with
  | some s, .str t => s = t
  | none, .undefined => true
  | _, _ => false

/-- Wrap the result of a find into an endpoint: the found node, or
undefined when the find failed (the non-null assertion does not check). -/
def nodeEndOf : Option NodeData → LinkEnd
  | some n => .node n
  | none => .undefined

/-- The endpoint resolution loop body (src/src/App.tsx lines 641-659): only
links whose source is still a raw string are touched; both endpoints are
then replaced by the find result, undefined when absent. -/
def resolveLink (nodes : List NodeData) (l : LinkData) : LinkData :=
  match l.source with
  | .str s =>
    let sourceNode := nodes.find? (fun n => n.id = some s)
    let targetNode := nodes.find? (fun n => jsIdEqEnd n.id l.target)
    { l with source := nodeEndOf sourceNode, target := nodeEndOf targetNode }
  | _ => l

/-- The graph state held by the App data store. -/
structure GraphState where
  nodes : List NodeData
  links : List LinkData
deriving DecidableEq

/-- One full reconciliation pass: the setData updater of the App useEffect
(src/src/App.tsx lines 496-666), over an explicit record heap. Returns the
updated heap together with the new graph state, or Except.error when the
pass throws (property access on an undefined link endpoint inside
getLinkKey). -/
def setDataReconcile (heap : RecHeap) (prev : GraphState)
    (rawData : List (String × NetworkRaw)) (nodeFilter : NodeFilter)
    (showRelationships showTags : Bool) : Except Unit (RecHeap × GraphState) := do
  let existingNodeIDs := prev.nodes.map (fun n => n.id)
  let existingLinksIDs ← prev.links.mapM getLinkKey
  let st0 : PassState :=
    { heap := heap, seenNodeIDs := [], seenLinkIDs := [],
      seenNodeNames := [], newNodesData := [], newLinksData := [] }
  let st1 ← rawData.foldlM (networkPhase existingNodeIDs existingLinksIDs nodeFilter showTags) st0
  let keptNodes := prev.nodes.filter (fun n => n.id ∈ st1.seenNodeIDs)
  let nodes := keptNodes ++ st1.newNodesData
  let st2 ← if showRelationships then
      let rels := getLinksFromRelationships st1.heap
        (nodes.filterMap (fun n => if n.kind = .person then n.payload.refOpt else none))
        (nodes.filterMap (fun n => if n.kind = .organization then n.payload.refOpt else none))
      rels.foldlM (processRelLink existingLinksIDs) st1
    else pure st1
  let keptLinks := (prev.links.zip existingLinksIDs).filterMap
    (fun lk => if lk.2 ∈ st2.seenLinkIDs then some lk.1 else none)
  let links := (keptLinks ++ st2.newLinksData).map (resolveLink nodes)
  return (st2.heap, { nodes := nodes, links := links })

/-!
The custom ForceGraph2D component (the unnamed source file that replaces
react-force-graph-2d) and the d3-force behavior it depends on. Positions
and view coordinates are real numbers.
-/

/-- The mutable simulation node objects: the spread copies made by the
simulationData useMemo, which d3 later mutates in place. Every numeric
field is optional, since the copies start without simulation state. -/
structure SimNode where
  id : JSStr
  x : Option ℝ
  y : Option ℝ
  vx : Option ℝ
  vy : Option ℝ
  fx : Option ℝ
  fy : Option ℝ

/-- A simulation link endpoint: a raw id (string or undefined) as produced
by the simulationData useMemo, or a node object after d3 resolved it. -/
inductive SimEnd
  | idRef (s : JSStr)
  | nodeRef (n : SimNode)

/-- A simulation link. -/
structure SimLink where
  source : SimEnd
  target : SimEnd
  ty : LinkTy

/-- The node conversion of the simulationData useMemo (component lines
103-107): simNode is a fresh shallow copy of the graph node. NodeData
carries no simulation state, so the copy has none either: previous
positions and velocities, which live only on the previous copies, are not
carried over. -/
def simulationNodesOf (nodes : List NodeData) : List SimNode :=
  nodes.map (fun n =>
    { id := n.id, x := none, y := none, vx := none, vy := none, fx := none, fy := none })

/-- The endpoint conversion of the simulationData useMemo (component lines
109-113): a string source is kept, otherwise source.id is read, which
throws a TypeError when the endpoint is undefined. -/
def simEndId : LinkEnd → Except Unit JSStr
  | .str s => .ok (some s)
  | .node n => .ok n.id
  | .undefined => .error ()

/-- The link conversion of the simulationData useMemo. -/
def simLinksOf (links : List LinkData) : Except Unit (List SimLink) :=
  links.mapM (fun l => do
    let s ← simEndId l.source
    let t ← simEndId l.target
    return { source := .idRef s, target := .idRef t, ty := l.ty })

/-- The phyllotaxis x coordinate d3-force assigns to the node at index i
when it has no position yet: initialRadius 10, initialAngle pi * (3 - sqrt 5). -/
noncomputable def phyllotaxisX (i : ℕ) : ℝ :=
  10 * Real.sqrt (0.5 + i) * Real.cos (i * (Real.pi * (3 - Real.sqrt 5)))

/-- The phyllotaxis y coordinate. -/
noncomputable def phyllotaxisY (i : ℕ) : ℝ :=
  10 * Real.sqrt (0.5 + i) * Real.sin (i * (Real.pi * (3 - Real.sqrt 5)))

/-- One node of the node-array assignment of d3-force (initializeNodes):
a fixed coordinate overrides the free one; a node still missing either
coordinate receives the phyllotaxis position for its index; a node missing
either velocity component has both reset to zero. -/
noncomputable def d3InitNode (i : ℕ) (n : SimNode) : SimNode :=
  let x0 := match n.fx with | some v => some v | none => n.x
  let y0 := match n.fy with | some v => some v | none => n.y
  let vx0 : ℝ := match n.vx, n.vy with | some a, some _ => a | _, _ => 0
  let vy0 : ℝ := match n.vx, n.vy with | some _, some b => b | _, _ => 0
  match x0, y0 with
  | some x, some y =>
    { id := n.id, x := some x, y := some y, vx := some vx0, vy := some vy0,
      fx := n.fx, fy := n.fy }
  | _, _ =>
    { id := n.id, x := some (phyllotaxisX i), y := some (phyllotaxisY i),
      vx := some vx0, vy := some vy0, fx := n.fx, fy := n.fy }

/-- The node-array assignment of d3-force from a starting index. -/
noncomputable def d3InitNodesFrom (i : ℕ) : List SimNode → List SimNode
  | [] => []
  | n :: rest => d3InitNode i n :: d3InitNodesFrom (i + 1) rest

/-- The node-array assignment of d3-force over a whole list. -/
noncomputable def d3InitNodes (ns : List SimNode) : List SimNode :=
  d3InitNodesFrom 0 ns

/-- The d3 force simulation state, restricted to what the component reads
and writes. The generation field tags the creation event, so that reuse of
the one instance is observable; force internals (charge, link strength,
collision) are not modelled, as no claim depends on them. -/
structure Simulation where
  generation : ℕ
  nodes : List SimNode
  links : List SimLink
  alpha : ℝ
  alphaTarget : ℝ
  running : Bool
  centerX : ℝ
  centerY : ℝ

/-- forceSimulation(nodes) with the forces attached (component lines
209-220): nodes are passed through the d3 node-array assignment, alpha
starts at 1 and the internal timer starts. -/
noncomputable def createSimulation (gen : ℕ) (raw : List SimNode) (links : List SimLink)
    (w h : ℝ) : Simulation :=
  { generation := gen, nodes := d3InitNodes raw, links := links, alpha := 1,
    alphaTarget := 0, running := true, centerX := w / 2, centerY := h / 2 }

/-- The simulation useEffect body (component lines 204-242): with an empty
node list the effect returns early; otherwise the simulation is created
once, and afterwards the existing instance is updated in place
(nodes, links, center) and reheated with alpha(1).restart(). -/
noncomputable def simulationEffect (cur : Option Simulation) (raw : List SimNode)
    (links : List SimLink) (w h : ℝ) : Option Simulation :=
  if raw.isEmpty then cur
  else match cur with
    | none => some (createSimulation 0 raw links w h)
    | some s =>
      some
        { s with
          nodes := d3InitNodes raw, links := links,
          centerX := w / 2, centerY := h / 2, alpha := 1, running := true }

/-- One graph-data update as the component performs it: convert the graph
through the simulationData useMemo (which throws on an undefined link
endpoint), then run the simulation useEffect. -/
noncomputable def renderUpdate (cur : Option Simulation) (g : GraphState) (w h : ℝ) :
    Except Unit (Option Simulation) := do
  let links ← simLinksOf g.links
  return simulationEffect cur (simulationNodesOf g.nodes) links w h

/-- The view transform ref: scale k and translation x, y. -/
structure ViewTransform where
  k : ℝ
  x : ℝ
  y : ℝ

/-- getNodeAtPosition (component lines 245-262): the pointer is inverse
transformed into world coordinates, nodes without both coordinates are
skipped, and the first node whose center lies within nodeSize of the
pointer is returned. Note the radius compared against is the raw nodeSize,
not divided by the zoom scale. -/
noncomputable def getNodeAtPosition (nodeSize : SimNode → ℝ) (t : ViewTransform)
    (px py : ℝ) : List SimNode → Option SimNode
  | [] => none
  | n :: rest =>
    match n.x, n.y with
    | some nx, some ny =>
      if Real.sqrt (((px - t.x) / t.k - nx) ^ 2 + ((py - t.y) / t.k - ny) ^ 2) ≤ nodeSize n
      then some n
      else getNodeAtPosition nodeSize t px py rest
    | _, _ => getNodeAtPosition nodeSize t px py rest

/-- Lookup in the nodeMap built by the simulationData useMemo: entries are
inserted in list order keyed by id, so a duplicate id resolves to the last
node carrying it. -/
def nodeMapGet (nodes : List SimNode) (k : JSStr) : Option SimNode :=
  nodes.foldl (fun acc n => if n.id = k then some n else acc) none

/-- Resolution of a link endpoint at draw/hit-test time: an object
endpoint is used directly, anything else (string or undefined) is looked
up in the nodeMap. -/
def resolveSimEnd (nodes : List SimNode) : SimEnd → Option SimNode
  | .nodeRef n => some n
  | .idRef k => nodeMapGet nodes k

/-- The segment length computed by getLinkAtPosition. -/
noncomputable def segLen (sx sy tx ty : ℝ) : ℝ :=
  Real.sqrt ((tx - sx) * (tx - sx) + (ty - sy) * (ty - sy))

/-- The distance from the inverse-transformed pointer to the segment,
computed by projecting the pointer onto the segment and clamping the
projection parameter to the unit interval. -/
noncomputable def segDist (t : ViewTransform) (px py sx sy tx ty : ℝ) : ℝ :=
  let ax := (px - t.x) / t.k
  let ay := (py - t.y) / t.k
  let dx := tx - sx
  let dy := ty - sy
  let len := segLen sx sy tx ty
  let tt := max 0 (min 1 (((ax - sx) * dx + (ay - sy) * dy) / (len * len)))
  Real.sqrt ((ax - (sx + tt * dx)) ^ 2 + (ay - (sy + tt * dy)) ^ 2)

/-- getLinkAtPosition (component lines 265-309): links with an
unresolvable endpoint or a missing coordinate are skipped, as are
zero-length segments; otherwise the pointer (inverse transformed) is
projected onto the segment with the parameter clamped to the unit
interval, and the first link within 5 / k of the pointer is returned. -/
noncomputable def getLinkAtPosition (nodes : List SimNode) (t : ViewTransform)
    (px py : ℝ) : List SimLink → Option SimLink
  | [] => none
  | l :: rest =>
    match resolveSimEnd nodes l.source, resolveSimEnd nodes l.target with
    | some sn, some tn =>
      match sn.x, sn.y, tn.x, tn.y with
      | some sx, some sy, some tx, some ty =>
        if segLen sx sy tx ty = 0 then getLinkAtPosition nodes t px py rest
        else
          if segDist t px py sx sy tx ty ≤ 5 / t.k
          then some l
          else getLinkAtPosition nodes t px py rest
      | _, _, _, _ => getLinkAtPosition nodes t px py rest
    | _, _ => getLinkAtPosition nodes t px py rest

/-- The hit predicate of the node hit-test: both coordinates present and
the inverse-transformed pointer within nodeSize of the center. -/
def nodeHitP (nodeSize : SimNode → ℝ) (t : ViewTransform) (px py : ℝ) (n : SimNode) :
    Prop :=
  ∃ nx ny, n.x = some nx ∧ n.y = some ny ∧
    Real.sqrt (((px - t.x) / t.k - nx) ^ 2 + ((py - t.y) / t.k - ny) ^ 2) ≤ nodeSize n

/-- The hit predicate of the link hit-test: both endpoints resolve with
both coordinates present, the segment has nonzero length, and the
clamped-projection distance is within 5 / k. -/
def linkHitP (nodes : List SimNode) (t : ViewTransform) (px py : ℝ) (l : SimLink) :
    Prop :=
  ∃ sn tn sx sy tx ty, resolveSimEnd nodes l.source = some sn
    ∧ resolveSimEnd nodes l.target = some tn
    ∧ sn.x = some sx ∧ sn.y = some sy ∧ tn.x = some tx ∧ tn.y = some ty
    ∧ segLen sx sy tx ty ≠ 0 ∧ segDist t px py sx sy tx ty ≤ 5 / t.k

/-- The canvas operations draw issues, as abstract commands. -/
inductive DrawCmd
  | clearRect (w h : ℝ)
  | fillRect (color : String) (w h : ℝ)
  | strokeLine (x1 y1 x2 y2 : ℝ) (color : String) (width : ℝ)
  | fillCircle (x y r : ℝ) (color : String) (strokeWidth : ℝ)

/-- Extraction of a numeric field after the null guards: reading a missing
value would be the thrown-exception case. -/
def jsNum : Option ℝ → Except Unit ℝ
  | some v => .ok v
  | none => .error ()

/-- The link pass of draw (component lines 139-162, default path): skip a
link whose endpoints do not both resolve with both coordinates present,
otherwise stroke the segment with the width divided by the scale. -/
noncomputable def drawLinkCmd (nodes : List SimNode) (k : ℝ) (linkColor : SimLink → String)
    (linkWidth : SimLink → ℝ) (l : SimLink) : Except Unit (List DrawCmd) :=
  match resolveSimEnd nodes l.source, resolveSimEnd nodes l.target with
  | some sn, some tn =>
    if sn.x.isNone || sn.y.isNone || tn.x.isNone || tn.y.isNone then .ok []
    else do
      let sx ← jsNum sn.x
      let sy ← jsNum sn.y
      let tx ← jsNum tn.x
      let ty ← jsNum tn.y
      .ok [.strokeLine sx sy tx ty (linkColor l) (linkWidth l / k)]
  | _, _ => .ok []

/-- The node pass of draw (component lines 170-182, default path): skip a
node missing either coordinate, otherwise fill a circle of radius
nodeSize / k with a stroke of width 1.5 / k. -/
noncomputable def drawNodeCmd (k : ℝ) (nodeColor : SimNode → String) (nodeSize : SimNode → ℝ)
    (n : SimNode) : Except Unit (List DrawCmd) :=
  if n.x.isNone || n.y.isNone then .ok []
  else do
    let nx ← jsNum n.x
    let ny ← jsNum n.y
    .ok [.fillCircle nx ny (nodeSize n / k) (nodeColor n) (1.5 / k)]

/-- draw (component lines 119-189, default path; the custom canvas-object
hooks delegate to caller callbacks and are outside every claim): a missing
canvas or context makes the call return immediately having drawn nothing;
otherwise clear, fill the background, draw links then nodes. -/
noncomputable def draw (canvasOk ctxOk : Bool) (width height : ℝ) (bg : String)
    (linkColor : SimLink → String) (linkWidth : SimLink → ℝ)
    (nodeColor : SimNode → String) (nodeSize : SimNode → ℝ)
    (t : ViewTransform) (nodes : List SimNode) (links : List SimLink) :
    Except Unit (List DrawCmd) :=
  if !canvasOk then .ok []
  else if !ctxOk then .ok []
  else do
    let linkCmds ← links.mapM (drawLinkCmd nodes t.k linkColor linkWidth)
    let nodeCmds ← nodes.mapM (drawNodeCmd t.k nodeColor nodeSize)
    .ok ([.clearRect width height, .fillRect bg width height]
      ++ linkCmds.flatten ++ nodeCmds.flatten)

/-- The drag-relevant slice of the running simulation. -/
structure DragSim where
  nodes : List SimNode
  alphaTarget : ℝ
  running : Bool

/-- Mutation of the node object the nodeMap yields for an id. The map
holds one object per id; the update is written over every node carrying
the id, which coincides with the JS mutation whenever ids are distinct. -/
noncomputable def updateNodeById (nodes : List SimNode) (k : JSStr)
    (f : SimNode → SimNode) : List SimNode :=
  nodes.map (fun n => if n.id = k then f n else n)

/-- The drag start handler (component lines 412-423): when the pointer
hits a node, bump the alpha target to 0.3, restart, and pin the node at
its current position. -/
noncomputable def dragStart (nodeSize : SimNode → ℝ) (t : ViewTransform)
    (sim : DragSim) (px py : ℝ) : DragSim :=
  match getNodeAtPosition nodeSize t px py sim.nodes with
  | some n =>
    { sim with
      alphaTarget := 0.3, running := true,
      nodes := updateNodeById sim.nodes n.id (fun m => { m with fx := m.x, fy := m.y }) }
  | none => sim

/-- The drag handler (component lines 424-435): when the pointer hits a
node, move its pin to the inverse-transformed pointer position. -/
noncomputable def dragMove (nodeSize : SimNode → ℝ) (t : ViewTransform)
    (sim : DragSim) (px py : ℝ) : DragSim :=
  match getNodeAtPosition nodeSize t px py sim.nodes with
  | some n =>
    { sim with
      nodes := updateNodeById sim.nodes n.id
        (fun m => { m with fx := some ((px - t.x) / t.k), fy := some ((py - t.y) / t.k) }) }
  | none => sim

/-- The drag end handler (component lines 436-449): the alpha target is
always reset to 0; then the pointer is hit-tested again at the release
position and only a node found there has its pin cleared. -/
noncomputable def dragEnd (nodeSize : SimNode → ℝ) (t : ViewTransform)
    (sim : DragSim) (px py : ℝ) : DragSim :=
  let sim1 := { sim with alphaTarget := (0 : ℝ) }
  match getNodeAtPosition nodeSize t px py sim1.nodes with
  | some n =>
    { sim1 with
      nodes := updateNodeById sim1.nodes n.id
        (fun m => { m with fx := none, fy := none }) }
  | none => sim1

/-!
The network data fetchers of src/src/App.tsx. Execution is single
threaded: the abort flag can change only while the fetcher is suspended at
an await, so time is counted in suspension points. A resumption at time t
observes aborted t, and every synchronous stretch between two awaits,
including any callback invocation inside it, runs at the time of the last
resumption.
-/

/-- One invocation of the data callback: the instant (last resumption
time) at which it fires, and the delivered RawData payload. -/
structure RawDataEmission where
  time : ℕ
  people : List ProfileRec
  orgs : List ProfileRec
  done : Bool

/-- The people filter of flatMurmurationsMap: linked_schemas contains the
people schema id; a record without the array is excluded. -/
def isPersonRec (p : ProfileRec) : Bool :=
  (p.linked_schemas.getD []).contains "people_schema-v0.1.0"

/-- The organizations filter of flatMurmurationsMap. -/
def isOrgRec (p : ProfileRec) : Bool :=
  (p.linked_schemas.getD []).contains "organizations_schema-v1.0.0"

/-- flatMurmurationsMap (src/src/App.tsx lines 164-178): one await on
fetchJSON (resuming at time 1), an abort check, then a single data
callback; the catch path checks abort and calls only the error callback. -/
def flatMurmurationsMapRun (aborted : ℕ → Bool)
    (fetched : Except Unit (List ProfileRec)) : List RawDataEmission :=
  match fetched with
  | .error _ => []
  | .ok res =>
    if aborted 1 then []
    else [{ time := 1, people := res.filter isPersonRec, orgs := res.filter isOrgRec,
            done := true }]

/-- A Kumu element, restricted to the fields the converter reads. -/
structure KumuNode where
  nid : Int
  label : String
  description : String
  image : Option String

instance : Inhabited KumuNode := ⟨⟨0, "", "", none⟩⟩

/-- A Kumu connection: the From and To element ids. -/
structure KumuConnection where
  src : Int
  dst : Int

/-- The profile url a Kumu element is assigned. -/
def kumuProfileUrl (domain : String) (i : Int) : String :=
  domain ++ "/person/" ++ toString i

/-- The base Person record built for a Kumu element
(src/src/App.tsx lines 223-236): empty strings and null images become
undefined through the or-undefined coercions. -/
def kumuBasePerson (domain : String) (tags : List String) (node : KumuNode) : ProfileRec :=
  { name := node.label,
    profile_url := some (kumuProfileUrl domain node.nid),
    primary_url := some (kumuProfileUrl domain node.nid),
    description := if node.description = "" then none else some node.description,
    image := match node.image with
      | none => none
      | some s => if s = "" then none else some s,
    tags := some tags,
    relationships := some [],
    linked_schemas := some [] }

/-- The peopleIdMap lookup: entries are inserted in element order keyed by
the stringified id, so a duplicate id resolves to the last element. -/
def kumuLastIdx (elements : List KumuNode) (i : Int) : Option ℕ :=
  (List.range elements.length).foldl
    (fun acc j => if (elements.getD j default).nid = i then some j else acc) none

/-- convertKumuToMurmurations (src/src/App.tsx lines 217-255): build one
person per element, then push a knows relationship onto the From person of
every connection whose two endpoints resolve. -/
def convertKumuToMurmurations (elements : List KumuNode)
    (connections : List KumuConnection) (domain : String) (tags : List String) :
    List ProfileRec :=
  let people0 := elements.map (kumuBasePerson domain tags)
  connections.foldl (fun ppl c =>
    match kumuLastIdx elements c.src, kumuLastIdx elements c.dst with
    | some fi, some ti =>
      let fromPerson := ppl.getD fi default
      let toUrl := kumuProfileUrl domain (elements.getD ti default).nid
      ppl.set fi
        { fromPerson with
          relationships := some ((fromPerson.relationships.getD [])
            ++ [{ predicate_url := SchemaOrg.knows, object_url := toUrl }]) }
    | _, _ => ppl) people0

/-- flatKumuMap (src/src/App.tsx lines 257-269): one await on fetchJSON
(resuming at time 1), an abort check, conversion, then a single data
callback; the catch path calls only the error callback. -/
def flatKumuMapRun (aborted : ℕ → Bool)
    (fetched : Except Unit (List KumuNode × List KumuConnection))
    (domain : String) (tags : List String) : List RawDataEmission :=
  match fetched with
  | .error _ => []
  | .ok res =>
    if aborted 1 then []
    else [{ time := 1, people := convertKumuToMurmurations res.1 res.2 domain tags,
            orgs := [], done := true }]

/-- One page response of the Murmurations index (fetchPage already maps a
failed fetch to an empty page with zero total_pages, after calling the
error callback). -/
structure MurPage where
  pageData : List ProfileRec
  total_pages : ℕ

/-- The pagination while loop of the Murmurations Test Index fetcher
(src/src/App.tsx lines 341-363). Arguments: the abort flag over
suspension times, the page providers, the totals read from the first
responses, the two page counters, the current time (index of the last
resumption, already checked not aborted), and the accumulated data. Each
iteration first fires the data callback with done false, then fetches the
next people page and the next orgs page, checking the abort flag after
each await and returning without further callbacks when it is set. The
final callback with done true fires when the loop condition fails. The
guard caps both counters at maxPages of 5. -/
def indexLoop (aborted : ℕ → Bool) (peoplePageF orgsPageF : ℕ → MurPage)
    (tpp top : ℕ) (pp op : ℕ) (time : ℕ) (people orgs : List ProfileRec) :
    List RawDataEmission :=
  if (pp < tpp ∨ op < top) ∧ pp < 5 ∧ op < 5 then
    { time := time, people := people, orgs := orgs, done := false } ::
      (if _hpp : pp < tpp then
        (if aborted (time + 1) then []
         else if _hop2 : op < top then
           (if aborted (time + 2) then []
            else indexLoop aborted peoplePageF orgsPageF tpp top (pp + 1) (op + 1)
              (time + 2) (people ++ (peoplePageF (pp + 1)).pageData)
              (orgs ++ (orgsPageF (op + 1)).pageData))
         else indexLoop aborted peoplePageF orgsPageF tpp top (pp + 1) op (time + 1)
           (people ++ (peoplePageF (pp + 1)).pageData) orgs)
      else if _hop : op < top then
        (if aborted (time + 1) then []
         else indexLoop aborted peoplePageF orgsPageF tpp top pp (op + 1) (time + 1)
           people (orgs ++ (orgsPageF (op + 1)).pageData))
      else [])
  else [{ time := time, people := people, orgs := orgs, done := true }]
termination_by (5 - pp) + (5 - op)
decreasing_by
  all_goals omega

/-- The Murmurations Test Index fetcher (src/src/App.tsx lines 286-365):
the two first pages are awaited together (resuming at time 1), the totals
are read, the abort flag is checked, and either a single done callback
fires (both totals 1) or the pagination loop runs. -/
def murmurationsIndexRun (aborted : ℕ → Bool) (peoplePageF orgsPageF : ℕ → MurPage) :
    List RawDataEmission :=
  let peopleResponse := peoplePageF 1
  let orgsResponse := orgsPageF 1
  let tpp := peopleResponse.total_pages
  let top := orgsResponse.total_pages
  if aborted 1 then []
  else if top = 1 ∧ tpp = 1 then
    [{ time := 1, people := peopleResponse.pageData, orgs := orgsResponse.pageData,
       done := true }]
  else indexLoop aborted peoplePageF orgsPageF tpp top 1 1 1
    peopleResponse.pageData orgsResponse.pageData

/-!
Specification-side notions used to state the theorems: the ids a dataset
contributes, the nodes a network adds, the composite key as a function of
its components, and dash-freedom (the composite key separates its three
components with a dash, so recovering them needs dash-free components).
-/

/-- The composite link key as a function of its three components. -/
def mkLinkKey (u : String) (ty : LinkTy) (v : String) : String :=
  u ++ "-" ++ ty.str ++ "-" ++ v

/-- A string without the dash separator of composite link keys. -/
def dashFree (s : String) : Prop := ∀ c ∈ s.data, c ≠ '-'

/-- The node ids one active network contributes: the profile urls of its
people and orgs in order, followed by its tag ids when tags are shown. -/
def networkSeenIds (h : RecHeap) (showTags : Bool) (raw : NetworkRaw) : List JSStr :=
  (raw.people ++ raw.orgs).map (fun r => (h.getP r).profile_url)
    ++ (if showTags then (knownTagsOf h raw.people raw.orgs).map
          (fun t => some ("tag:" ++ t)) else [])

/-- The node ids occurring in the supplied data: person and organization
profile urls plus tag ids, over the active networks. -/
def dataNodeIds (h : RecHeap) (rawData : List (String × NetworkRaw)) (showTags : Bool) :
    List JSStr :=
  rawData.flatMap (fun e => if e.2.active then networkSeenIds h showTags e.2 else [])

/-- The nodes one active network pushes: its people, orgs and tag nodes
whose ids are not already live. -/
def networkNewNodes (h : RecHeap) (existing : List JSStr) (showTags : Bool)
    (network : String) (raw : NetworkRaw) : List NodeData :=
  (raw.people.filter (fun r => (h.getP r).profile_url ∉ existing)).map (personNodeOf h network)
    ++ (raw.orgs.filter (fun r => (h.getP r).profile_url ∉ existing)).map (orgNodeOf h network)
    ++ (if showTags then ((knownTagsOf h raw.people raw.orgs).filter
          (fun t => some ("tag:" ++ t) ∉ existing)).map (tagNodeOf network) else [])

/-- The id list of a node list. -/
def nodeIdsOf (nodes : List NodeData) : List JSStr := nodes.map (fun n => n.id)

/-!
Concrete instances used by counterexamples and failing-input theorems.
-/

/-- A minimal person record named Alice with id a. -/
def aliceRec : ProfileRec :=
  { name := "Alice", profile_url := some "a", primary_url := none, description := none,
    image := none, tags := none, relationships := none, linked_schemas := none }

/-- The single-network raw data containing only aliceRec (heap slot 0). -/
def aliceRaw : List (String × NetworkRaw) := [("N", ⟨[0], [], true⟩)]

/-- The node the reconciler creates for aliceRec. -/
def aliceNode : NodeData :=
  { id := some "a", name := "Alice", kind := .person, networks := ["N"],
    payload := .profileRef 0 }

/-- The graph state after a first pass over aliceRaw. -/
def aliceGraph : GraphState := ⟨[aliceNode], []⟩

/-- A running simulation in which the node a has moved to x = 50 (under
ticks or a drag): the live state immediately before a reconciliation. -/
noncomputable def aliceSim : Simulation :=
  { generation := 0,
    nodes := [⟨some "a", some 50, some 0, some 0, some 0, none, none⟩],
    links := [], alpha := 1 / 5, alphaTarget := 0, running := true,
    centerX := 450, centerY := 300 }

/-- Network A record of the crash scenario: Alice at urlA carrying tag t. -/
def crashAliceA : ProfileRec := { aliceRec with profile_url := some "urlA", tags := some ["t"] }

/-- Network B record of the crash scenario: Alice at urlB. -/
def crashAliceB : ProfileRec := { aliceRec with profile_url := some "urlB" }

/-- The previously live node for urlA. -/
def crashPrevNode : NodeData :=
  { id := some "urlA", name := "Alice", kind := .person, networks := ["A"],
    payload := .profileRef 0 }

/-- The raw data of the crash scenario: network B (iterated first)
supplies Alice at urlB, network A supplies Alice at urlA with tag t. -/
def crashRaw : List (String × NetworkRaw) := [("B", ⟨[1], [], true⟩), ("A", ⟨[0], [], true⟩)]

/-- The duplicate-name counterexample data: two people named Alice with
distinct profile urls u1 and u2. -/
def dupAlice1 : ProfileRec := { aliceRec with profile_url := some "u1" }

/-- The second duplicate-name person. -/
def dupAlice2 : ProfileRec := { aliceRec with profile_url := some "u2" }

/-- Two organizations sharing the name X with distinct profile urls. -/
def orgX1 : ProfileRec := { aliceRec with name := "X", profile_url := some "o1" }

/-- The second organization named X. -/
def orgX2 : ProfileRec := { aliceRec with name := "X", profile_url := some "o2" }

/-- A node at the world origin used by the geometry counterexamples. -/
noncomputable def originNode : SimNode :=
  ⟨some "a", some 0, some 0, some 0, some 0, none, none⟩

/-- The drag counterexample state: one free node at the origin. -/
noncomputable def dragSim0 : DragSim :=
  { nodes := [originNode], alphaTarget := 0, running := false }

/-- An already-running simulation at alpha one half, holding one node. -/
noncomputable def warmSim : Simulation :=
  { generation := 3,
    nodes := [⟨some "a", some 7, some 8, some 0, some 0, none, none⟩],
    links := [], alpha := 1 / 2, alphaTarget := 0, running := true,
    centerX := 450, centerY := 300 }

/-- The records of the active datasets, in iteration order (people before
orgs within each network). -/
def activeRecs (rawData : List (String × NetworkRaw)) : List PRef :=
  rawData.flatMap (fun e => if e.2.active then e.2.people ++ e.2.orgs else [])

/-- The nodes a whole pass pushes over the active networks. -/
def passNewNodes (h : RecHeap) (existing : List JSStr) (showTags : Bool)
    (rawData : List (String × NetworkRaw)) : List NodeData :=
  rawData.flatMap (fun e =>
    if e.2.active then networkNewNodes h existing showTags e.1 e.2 else [])

/-- The composite key of a link whose endpoints are already resolved node
objects (the form every link of a well-formed previous pass has). -/
def keyOfResolved (l : LinkData) : String :=
  match l.source, l.target with
  | .node ns, .node nt => mkLinkKey (idToString ns.id) l.ty (idToString nt.id)
  | _, _ => ""

/-- A node at (10, 0), the far endpoint of the witness link. -/
noncomputable def nodeTen : SimNode :=
  ⟨some "b", some 10, some 0, some 0, some 0, none, none⟩

/-- A degenerate link both of whose endpoints are the node at the origin. -/
noncomputable def selfLink : SimLink :=
  ⟨.nodeRef originNode, .nodeRef originNode, .knows⟩

/-- A link between the origin node and the node at (10, 0). -/
noncomputable def abLink : SimLink :=
  ⟨.nodeRef originNode, .nodeRef nodeTen, .knows⟩

/-!
Helper lemmas.
-/

theorem jsSetDedup_foldl_mem {α : Type} [DecidableEq α] (x : α) :
    ∀ (l acc : List α),
    (x ∈ l.foldl (fun acc a => if a ∈ acc then acc else acc ++ [a]) acc
      ↔ x ∈ acc ∨ x ∈ l) := by
  intro l
  induction l with
  | nil => simp
  | cons a l ih =>
    intro acc
    rw [List.foldl_cons, ih]
    by_cases ha : a ∈ acc
    · rw [if_pos ha]
      constructor
      · rintro (h | h)
        · exact Or.inl h
        · exact Or.inr (List.mem_cons_of_mem _ h)
      · rintro (h | h)
        · exact Or.inl h
        · rcases List.mem_cons.mp h with rfl | h2
          · exact Or.inl ha
          · exact Or.inr h2
    · rw [if_neg ha]
      simp only [List.mem_append, List.mem_singleton, List.mem_cons]
      tauto

theorem jsSetDedup_mem {α : Type} [DecidableEq α] (x : α) (l : List α) :
    x ∈ jsSetDedup l ↔ x ∈ l := by
  rw [jsSetDedup, jsSetDedup_foldl_mem]
  simp

theorem jsSetDedup_foldl_nodup {α : Type} [DecidableEq α] :
    ∀ (l acc : List α), acc.Nodup →
    (l.foldl (fun acc a => if a ∈ acc then acc else acc ++ [a]) acc).Nodup := by
  intro l
  induction l with
  | nil => exact fun acc h => h
  | cons a l ih =>
    intro acc hacc
    rw [List.foldl_cons]
    by_cases ha : a ∈ acc
    · rw [if_pos ha]
      exact ih acc hacc
    · rw [if_neg ha]
      refine ih _ ?_
      rw [List.nodup_append]
      exact ⟨hacc, List.nodup_singleton a, by simpa using ha⟩

theorem jsSetDedup_nodup {α : Type} [DecidableEq α] (l : List α) :
    (jsSetDedup l).Nodup :=
  jsSetDedup_foldl_nodup l [] List.nodup_nil

theorem getNodeAtPosition_nil (nodeSize : SimNode → ℝ) (t : ViewTransform) (px py : ℝ) :
    getNodeAtPosition nodeSize t px py [] = none := rfl

theorem getNodeAtPosition_cons (nodeSize : SimNode → ℝ) (t : ViewTransform) (px py : ℝ)
    (n : SimNode) (rest : List SimNode) (nx ny : ℝ) (hx : n.x = some nx) (hy : n.y = some ny) :
    getNodeAtPosition nodeSize t px py (n :: rest) =
      if Real.sqrt (((px - t.x) / t.k - nx) ^ 2 + ((py - t.y) / t.k - ny) ^ 2) ≤ nodeSize n
      then some n
      else getNodeAtPosition nodeSize t px py rest := by
  cases n with
  | mk id x y vx vy fx fy =>
    cases hx
    cases hy
    rfl

theorem getNodeAtPosition_cons_skip (nodeSize : SimNode → ℝ) (t : ViewTransform) (px py : ℝ)
    (n : SimNode) (rest : List SimNode) (hxy : n.x = none ∨ n.y = none) :
    getNodeAtPosition nodeSize t px py (n :: rest) = getNodeAtPosition nodeSize t px py rest := by
  cases n with
  | mk id x y vx vy fx fy =>
    rcases hxy with hx | hy
    · cases hx
      rfl
    · cases hy
      cases x <;> rfl

/-!
Claim C9: simulation instance reuse on data updates.
-/

/-- C9 counterexample: the claim states that every graph-data update after
the first render reassigns the node and link arrays of the existing
simulation and re-targets alpha to 1 with a restart. Updating warmSim
(alpha one half, one live node) to an empty node set hits the early return
of the simulation useEffect: the instance is returned untouched, its alpha
is still one half and its node array still holds the old node, so the
claim fails at this input. -/
theorem C9_counterexample :
    simulationEffect (some warmSim) [] [] 900 600 = some warmSim
    ∧ warmSim.alpha = 1 / 2 ∧ warmSim.nodes ≠ [] ∧ warmSim.generation = 3 := by
  refine ⟨by simp [simulationEffect], rfl, by simp [warmSim], rfl⟩

/-- C9 (amended): every graph-data update with a nonempty node list reuses
the single existing simulation instance (the generation tag is preserved,
so no new instance is created), reassigns its node and link arrays (the
nodes passing through the d3 node-array assignment) and re-targets alpha
to 1 with a restart; an update with an empty node list leaves the
simulation untouched. -/
theorem C9_amended (s : Simulation) (raw : List SimNode) (links : List SimLink)
    (w h : ℝ) (hraw : raw ≠ []) :
    ∃ s2, simulationEffect (some s) raw links w h = some s2
      ∧ s2.generation = s.generation ∧ s2.alpha = 1 ∧ s2.running = true
      ∧ s2.nodes = d3InitNodes raw ∧ s2.links = links
      ∧ s2.centerX = w / 2 ∧ s2.centerY = h / 2 := by
  have hne : raw.isEmpty = false := by
    simpa [List.isEmpty_iff] using hraw
  have heq : simulationEffect (some s) raw links w h =
      some
        { s with
          nodes := d3InitNodes raw, links := links, centerX := w / 2,
          centerY := h / 2, alpha := 1, running := true } := by
    simp [simulationEffect, hne]
  exact ⟨_, heq, rfl, rfl, rfl, rfl, rfl, rfl, rfl⟩

/-- Witness for C9 (amended) at a concrete input. -/
theorem C9_amended_witness :
    ([(⟨some "b", none, none, none, none, none, none⟩ : SimNode)] ≠ ([] : List SimNode))
    ∧ ∃ s2, simulationEffect (some warmSim)
        [⟨some "b", none, none, none, none, none, none⟩] [] 900 600 = some s2
      ∧ s2.generation = warmSim.generation ∧ s2.alpha = 1 ∧ s2.running = true
      ∧ s2.nodes = d3InitNodes [⟨some "b", none, none, none, none, none, none⟩]
      ∧ s2.links = [] ∧ s2.centerX = 900 / 2 ∧ s2.centerY = 600 / 2 :=
  ⟨by simp, C9_amended warmSim [⟨some "b", none, none, none, none, none, none⟩] [] 900 600
    (by simp)⟩

/-!
Claim C7: drag release clears the pinned position.
-/

/-- C7 counterexample: the claim states that when a drag gesture ends the
dragged node's fx/fy are cleared. Start a drag on the node at the world
origin (pinning it at fx = fy = 0), move the pointer to (100, 100) in one
step (no tick has moved the node, so the hit-test misses and the pin stays
at the origin) and release at (100, 100): the release hit-test misses the
dragged node, so its fx is still 0 after the gesture ends instead of
cleared. -/
theorem C7_counterexample :
    (dragEnd (fun _ => 5) ⟨1, 0, 0⟩
      (dragMove (fun _ => 5) ⟨1, 0, 0⟩
        (dragStart (fun _ => 5) ⟨1, 0, 0⟩ dragSim0 0 0) 100 100) 100 100).nodes.map
      SimNode.fx = [some 0] := by
  have hhit0 : getNodeAtPosition (fun _ => 5) ⟨1, 0, 0⟩ 0 0 [originNode]
      = some originNode := by
    rw [getNodeAtPosition_cons _ _ _ _ _ _ 0 0 rfl rfl, if_pos]
    norm_num [Real.sqrt_zero]
  have h1 : dragStart (fun _ => 5) ⟨1, 0, 0⟩ dragSim0 0 0
      = ⟨[⟨some "a", some 0, some 0, some 0, some 0, some 0, some 0⟩], 0.3, true⟩ := by
    unfold dragStart
    rw [show dragSim0.nodes = [originNode] from rfl, hhit0]
    simp [updateNodeById, dragSim0, originNode]
  have hmiss : getNodeAtPosition (fun _ => 5) ⟨1, 0, 0⟩ 100 100
      [(⟨some "a", some 0, some 0, some 0, some 0, some 0, some 0⟩ : SimNode)] = none := by
    rw [getNodeAtPosition_cons _ _ _ _ _ _ 0 0 rfl rfl, if_neg, getNodeAtPosition_nil]
    rw [Real.sqrt_le_iff]
    norm_num
  have h2 : dragMove (fun _ => 5) ⟨1, 0, 0⟩
      (dragStart (fun _ => 5) ⟨1, 0, 0⟩ dragSim0 0 0) 100 100
      = ⟨[⟨some "a", some 0, some 0, some 0, some 0, some 0, some 0⟩], 0.3, true⟩ := by
    rw [h1]
    unfold dragMove
    dsimp only
    rw [hmiss]
  rw [h2]
  unfold dragEnd
  dsimp only
  rw [hmiss]
  simp

/-- C7 (amended): releasing a drag always resets the alpha target to 0,
and the node under the release pointer, if the hit-test finds one, has its
fx/fy cleared; in particular when the release point still hits the dragged
node (the usual case, the simulation having moved the node to its pinned
position) the node is un-pinned, but if the pointer no longer hits it the
fields stay set. During the drag, the node under the pointer has fx/fy set
to the inverse-transformed pointer position, and starting a drag on a node
bumps the alpha target to 0.3 and restarts the simulation. -/
theorem C7_amended (nodeSize : SimNode → ℝ) (t : ViewTransform) (sim : DragSim)
    (px py : ℝ) :
    (dragEnd nodeSize t sim px py).alphaTarget = 0
    ∧ (∀ n, getNodeAtPosition nodeSize t px py sim.nodes = some n →
        (∀ m ∈ (dragEnd nodeSize t sim px py).nodes, m.id = n.id →
          m.fx = none ∧ m.fy = none)
        ∧ (dragStart nodeSize t sim px py).alphaTarget = 0.3
        ∧ (dragStart nodeSize t sim px py).running = true
        ∧ (∀ m ∈ (dragMove nodeSize t sim px py).nodes, m.id = n.id →
            m.fx = some ((px - t.x) / t.k) ∧ m.fy = some ((py - t.y) / t.k))) := by
  constructor
  · unfold dragEnd
    dsimp only
    cases getNodeAtPosition nodeSize t px py sim.nodes <;> rfl
  · intro n hn
    refine ⟨?_, ?_, ?_, ?_⟩
    · intro m hm hid
      unfold dragEnd at hm
      dsimp only at hm
      rw [hn] at hm
      dsimp only [updateNodeById] at hm
      rcases List.mem_map.mp hm with ⟨n2, hn2, rfl⟩
      by_cases h : n2.id = n.id
      · simp [h]
      · simp only [if_neg h] at hid ⊢
        exact absurd hid h
    · unfold dragStart
      rw [hn]
    · unfold dragStart
      rw [hn]
    · intro m hm hid
      unfold dragMove at hm
      rw [hn] at hm
      dsimp only [updateNodeById] at hm
      rcases List.mem_map.mp hm with ⟨n2, hn2, rfl⟩
      by_cases h : n2.id = n.id
      · simp [h]
      · simp only [if_neg h] at hid ⊢
        exact absurd hid h

/-- Witness for C7 (amended): releasing at the center of the node clears
its pin. -/
theorem C7_amended_witness :
    getNodeAtPosition (fun _ => 5) ⟨1, 0, 0⟩ 0 0 dragSim0.nodes = some originNode
    ∧ (dragEnd (fun _ => 5) ⟨1, 0, 0⟩ dragSim0 0 0).alphaTarget = 0
    ∧ (∀ m ∈ (dragEnd (fun _ => 5) ⟨1, 0, 0⟩ dragSim0 0 0).nodes,
        m.id = originNode.id → m.fx = none ∧ m.fy = none) := by
  have hget : getNodeAtPosition (fun _ => 5) ⟨1, 0, 0⟩ 0 0 dragSim0.nodes
      = some originNode := by
    rw [show dragSim0.nodes = [originNode] from rfl]
    rw [getNodeAtPosition_cons _ _ _ _ _ _ 0 0 rfl rfl, if_pos]
    norm_num [Real.sqrt_zero]
  have h := C7_amended (fun _ => 5) ⟨1, 0, 0⟩ dragSim0 0 0
  exact ⟨hget, h.1, (h.2 originNode hget).1⟩

/-!
Claim C5: node hit-testing.
-/

/-- The node hit-test returns some node exactly when some node in the list
satisfies the hit predicate. -/
theorem getNodeAtPosition_isSome_iff (nodeSize : SimNode → ℝ) (t : ViewTransform)
    (px py : ℝ) : ∀ nodes : List SimNode,
    (getNodeAtPosition nodeSize t px py nodes).isSome
      ↔ ∃ n ∈ nodes, nodeHitP nodeSize t px py n := by
  intro nodes
  induction nodes with
  | nil => simp [getNodeAtPosition_nil]
  | cons n rest ih =>
    cases hx : n.x with
    | none =>
      rw [getNodeAtPosition_cons_skip _ _ _ _ _ _ (Or.inl hx), ih]
      constructor
      · rintro ⟨m, hm, hhit⟩
        exact ⟨m, List.mem_cons_of_mem _ hm, hhit⟩
      · rintro ⟨m, hm, hhit⟩
        rcases List.mem_cons.mp hm with rfl | hm2
        · rcases hhit with ⟨nx, ny, hxx, _, _⟩
          rw [hx] at hxx
          cases hxx
        · exact ⟨m, hm2, hhit⟩
    | some nx =>
      cases hy : n.y with
      | none =>
        rw [getNodeAtPosition_cons_skip _ _ _ _ _ _ (Or.inr hy), ih]
        constructor
        · rintro ⟨m, hm, hhit⟩
          exact ⟨m, List.mem_cons_of_mem _ hm, hhit⟩
        · rintro ⟨m, hm, hhit⟩
          rcases List.mem_cons.mp hm with rfl | hm2
          · rcases hhit with ⟨nx2, ny2, _, hyy, _⟩
            rw [hy] at hyy
            cases hyy
          · exact ⟨m, hm2, hhit⟩
      | some ny =>
        rw [getNodeAtPosition_cons _ _ _ _ _ _ nx ny hx hy]
        by_cases hin : Real.sqrt (((px - t.x) / t.k - nx) ^ 2
            + ((py - t.y) / t.k - ny) ^ 2) ≤ nodeSize n
        · rw [if_pos hin]
          simp only [Option.isSome_some, true_iff]
          exact ⟨n, List.mem_cons_self _ _, nx, ny, hx, hy, hin⟩
        · rw [if_neg hin, ih]
          constructor
          · rintro ⟨m, hm, hhit⟩
            exact ⟨m, List.mem_cons_of_mem _ hm, hhit⟩
          · rintro ⟨m, hm, hhit⟩
            rcases List.mem_cons.mp hm with rfl | hm2
            · rcases hhit with ⟨nx2, ny2, hxx, hyy, hd⟩
              rw [hx] at hxx
              rw [hy] at hyy
              cases hxx
              cases hyy
              exact absurd hd hin
            · exact ⟨m, hm2, hhit⟩

/-- The node returned by the hit-test is the first hit in iteration order. -/
theorem getNodeAtPosition_first (nodeSize : SimNode → ℝ) (t : ViewTransform)
    (px py : ℝ) : ∀ (nodes : List SimNode) (m : SimNode),
    getNodeAtPosition nodeSize t px py nodes = some m →
    ∃ pre post, nodes = pre ++ m :: post ∧ nodeHitP nodeSize t px py m
      ∧ ∀ q ∈ pre, ¬ nodeHitP nodeSize t px py q := by
  intro nodes
  induction nodes with
  | nil => intro m hm; rw [getNodeAtPosition_nil] at hm; cases hm
  | cons n rest ih =>
    intro m hm
    cases hx : n.x with
    | none =>
      rw [getNodeAtPosition_cons_skip _ _ _ _ _ _ (Or.inl hx)] at hm
      rcases ih m hm with ⟨pre, post, heq, hhit, hpre⟩
      refine ⟨n :: pre, post, by simp [heq], hhit, ?_⟩
      intro q hq
      rcases List.mem_cons.mp hq with rfl | hq2
      · rintro ⟨nx, ny, hxx, _, _⟩
        rw [hx] at hxx
        cases hxx
      · exact hpre q hq2
    | some nx =>
      cases hy : n.y with
      | none =>
        rw [getNodeAtPosition_cons_skip _ _ _ _ _ _ (Or.inr hy)] at hm
        rcases ih m hm with ⟨pre, post, heq, hhit, hpre⟩
        refine ⟨n :: pre, post, by simp [heq], hhit, ?_⟩
        intro q hq
        rcases List.mem_cons.mp hq with rfl | hq2
        · rintro ⟨nx2, ny2, _, hyy, _⟩
          rw [hy] at hyy
          cases hyy
        · exact hpre q hq2
      | some ny =>
        rw [getNodeAtPosition_cons _ _ _ _ _ _ nx ny hx hy] at hm
        by_cases hin : Real.sqrt (((px - t.x) / t.k - nx) ^ 2
            + ((py - t.y) / t.k - ny) ^ 2) ≤ nodeSize n
        · rw [if_pos hin] at hm
          cases hm
          exact ⟨[], rest, rfl, ⟨nx, ny, hx, hy, hin⟩, by simp⟩
        · rw [if_neg hin] at hm
          rcases ih m hm with ⟨pre, post, heq, hhit, hpre⟩
          refine ⟨n :: pre, post, by simp [heq], hhit, ?_⟩
          intro q hq
          rcases List.mem_cons.mp hq with rfl | hq2
          · rintro ⟨nx2, ny2, hxx, hyy, hd⟩
            rw [hx] at hxx
            rw [hy] at hyy
            cases hxx
            cases hyy
            exact absurd hd hin
          · exact hpre q hq2

/-- C5 counterexample: the claim states that a pointer at world distance
radius + epsilon from a node's center, the radius being the rendered
radius in world units, never resolves to the node. At zoom k = 2 the node
of size 5 is rendered with world radius 5 / 2 (the draw command below),
yet the screen point (6, 0), whose world position is at distance
5 / 2 + 1 / 2 from the center, still resolves to the node, because the
hit-test compares against the size not divided by the zoom scale. -/
theorem C5_counterexample :
    getNodeAtPosition (fun _ => 5) ⟨2, 0, 0⟩ 6 0 [originNode] = some originNode
    ∧ drawNodeCmd 2 (fun _ => "blue") (fun _ => 5) originNode
        = .ok [.fillCircle 0 0 (5 / 2) "blue" (1.5 / 2)]
    ∧ ((6 : ℝ) - 0) / 2 - 0 = 5 / 2 + 1 / 2 := by
  refine ⟨?_, ?_, by norm_num⟩
  · rw [getNodeAtPosition_cons _ _ _ _ _ _ 0 0 rfl rfl, if_pos]
    rw [Real.sqrt_le_iff]
    norm_num
  · simp only [drawNodeCmd, originNode, jsNum]
    rfl

/-- C5 (amended): the hit radius of getNodeAtPosition is the configured
node size itself, not divided by the zoom scale (so it agrees with the
rendered radius only at zoom 1). With that radius: the hit-test returns a
node exactly when some node with both coordinates present lies within its
size of the inverse-transformed pointer; the returned node is the first
such node in iteration order; for every zoom scale in the interval from
0.1 to 10, the screen point over a node's center resolves to a node; and
a pointer farther than every node's size resolves to nothing. -/
theorem C5_amended (nodeSize : SimNode → ℝ) (t : ViewTransform) :
    (∀ px py nodes, (getNodeAtPosition nodeSize t px py nodes).isSome
      ↔ ∃ n ∈ nodes, nodeHitP nodeSize t px py n)
    ∧ (∀ px py nodes m, getNodeAtPosition nodeSize t px py nodes = some m →
        ∃ pre post, nodes = pre ++ m :: post ∧ nodeHitP nodeSize t px py m
          ∧ ∀ q ∈ pre, ¬ nodeHitP nodeSize t px py q)
    ∧ (∀ nodes (n : SimNode) nx ny, 0.1 ≤ t.k → t.k ≤ 10 → n ∈ nodes →
        n.x = some nx → n.y = some ny → 0 ≤ nodeSize n →
        (getNodeAtPosition nodeSize t (nx * t.k + t.x) (ny * t.k + t.y) nodes).isSome)
    ∧ (∀ px py nodes, (∀ q ∈ nodes, ¬ nodeHitP nodeSize t px py q) →
        getNodeAtPosition nodeSize t px py nodes = none) := by
  refine ⟨getNodeAtPosition_isSome_iff nodeSize t,
    getNodeAtPosition_first nodeSize t, ?_, ?_⟩
  · intro nodes n nx ny hk1 _hk2 hmem hx hy hsize
    have hk0 : t.k ≠ 0 := by
      intro h
      rw [h] at hk1
      norm_num at hk1
    apply (getNodeAtPosition_isSome_iff nodeSize t _ _ nodes).mpr
    refine ⟨n, hmem, nx, ny, hx, hy, ?_⟩
    have hx0 : (nx * t.k + t.x - t.x) / t.k - nx = 0 := by
      field_simp
    have hy0 : (ny * t.k + t.y - t.y) / t.k - ny = 0 := by
      field_simp
    rw [hx0, hy0]
    simpa [Real.sqrt_zero] using hsize
  · intro px py nodes hall
    have := (getNodeAtPosition_isSome_iff nodeSize t px py nodes).not
    rw [Option.not_isSome_iff_eq_none] at this
    apply this.mpr
    rintro ⟨n, hn, hhit⟩
    exact hall n hn hhit

/-- Witness for C5 (amended): at zoom 1 the center of the node at the
origin resolves to a node. -/
theorem C5_amended_witness :
    (0.1 : ℝ) ≤ 1 ∧ (1 : ℝ) ≤ 10 ∧ (0 : ℝ) ≤ 5
    ∧ (getNodeAtPosition (fun _ => 5) ⟨1, 0, 0⟩ (0 * 1 + 0) (0 * 1 + 0)
        [originNode]).isSome := by
  have h := (C5_amended (fun _ => 5) ⟨1, 0, 0⟩).2.2.1 [originNode] originNode 0 0
    (by norm_num) (by norm_num) (by simp) rfl rfl (by norm_num)
  exact ⟨by norm_num, by norm_num, by norm_num, h⟩

/-!
Claim C6: link hit-testing.
-/

theorem getLinkAtPosition_nil (nodes : List SimNode) (t : ViewTransform) (px py : ℝ) :
    getLinkAtPosition nodes t px py [] = none := rfl

theorem getLinkAtPosition_cons (nodes : List SimNode) (t : ViewTransform) (px py : ℝ)
    (l : SimLink) (rest : List SimLink) (sn tn : SimNode) (sx sy tx ty : ℝ)
    (hs : resolveSimEnd nodes l.source = some sn)
    (ht : resolveSimEnd nodes l.target = some tn)
    (hsx : sn.x = some sx) (hsy : sn.y = some sy)
    (htx : tn.x = some tx) (hty : tn.y = some ty) :
    getLinkAtPosition nodes t px py (l :: rest) =
      if segLen sx sy tx ty = 0 then getLinkAtPosition nodes t px py rest
      else if segDist t px py sx sy tx ty ≤ 5 / t.k then some l
      else getLinkAtPosition nodes t px py rest := by
  rw [getLinkAtPosition, hs, ht]
  cases sn with
  | mk i x y vx vy fx fy =>
    cases tn with
    | mk i2 x2 y2 vx2 vy2 fx2 fy2 =>
      cases hsx
      cases hsy
      cases htx
      cases hty
      rfl

theorem getLinkAtPosition_cons_skipRes (nodes : List SimNode) (t : ViewTransform)
    (px py : ℝ) (l : SimLink) (rest : List SimLink)
    (h : resolveSimEnd nodes l.source = none ∨ resolveSimEnd nodes l.target = none) :
    getLinkAtPosition nodes t px py (l :: rest) = getLinkAtPosition nodes t px py rest := by
  rw [getLinkAtPosition]
  rcases h with h | h
  · rw [h]
  · rw [h]
    cases resolveSimEnd nodes l.source <;> rfl

theorem getLinkAtPosition_cons_skipPos (nodes : List SimNode) (t : ViewTransform)
    (px py : ℝ) (l : SimLink) (rest : List SimLink) (sn tn : SimNode)
    (hs : resolveSimEnd nodes l.source = some sn)
    (ht : resolveSimEnd nodes l.target = some tn)
    (h : sn.x = none ∨ sn.y = none ∨ tn.x = none ∨ tn.y = none) :
    getLinkAtPosition nodes t px py (l :: rest) = getLinkAtPosition nodes t px py rest := by
  rw [getLinkAtPosition, hs, ht]
  cases sn with
  | mk i x y vx vy fx fy =>
    cases tn with
    | mk i2 x2 y2 vx2 vy2 fx2 fy2 =>
      rcases h with h | h | h | h <;> cases h <;>
        dsimp only <;>
        first
        | rfl
        | (cases x <;> cases y <;> cases x2 <;> rfl)
        | (cases x <;> cases y <;> rfl)
        | (cases x <;> rfl)

/-- A link satisfying the hit predicate, once its endpoints are known to
resolve to sn and tn, yields defined coordinates, a nonzero segment and an
in-threshold distance. -/
theorem linkHitP_elim {nodes : List SimNode} {t : ViewTransform} {px py : ℝ}
    {l : SimLink} (h : linkHitP nodes t px py l) {sn tn : SimNode}
    (hs : resolveSimEnd nodes l.source = some sn)
    (ht : resolveSimEnd nodes l.target = some tn) :
    ∃ sx sy tx ty, sn.x = some sx ∧ sn.y = some sy ∧ tn.x = some tx ∧ tn.y = some ty
      ∧ segLen sx sy tx ty ≠ 0 ∧ segDist t px py sx sy tx ty ≤ 5 / t.k := by
  rcases h with ⟨sn2, tn2, sx, sy, tx, ty, hs2, ht2, hsx, hsy, htx, hty, hlen, hd⟩
  rw [hs] at hs2
  rw [ht] at ht2
  cases hs2
  cases ht2
  exact ⟨sx, sy, tx, ty, hsx, hsy, htx, hty, hlen, hd⟩

/-- A link satisfying the hit predicate has resolvable endpoints. -/
theorem linkHitP_resolves {nodes : List SimNode} {t : ViewTransform} {px py : ℝ}
    {l : SimLink} (h : linkHitP nodes t px py l) :
    (resolveSimEnd nodes l.source).isSome ∧ (resolveSimEnd nodes l.target).isSome := by
  rcases h with ⟨sn, tn, sx, sy, tx, ty, hs, ht, _⟩
  exact ⟨by rw [hs]; rfl, by rw [ht]; rfl⟩

/-- The link hit-test returns some link exactly when some link in the list
satisfies the hit predicate. -/
theorem getLinkAtPosition_isSome_iff (nodes : List SimNode) (t : ViewTransform)
    (px py : ℝ) : ∀ links : List SimLink,
    (getLinkAtPosition nodes t px py links).isSome
      ↔ ∃ l ∈ links, linkHitP nodes t px py l := by
  intro links
  induction links with
  | nil => simp [getLinkAtPosition_nil]
  | cons l rest ih =>
    have tailIff : ∀ (hnot : ¬ linkHitP nodes t px py l),
        getLinkAtPosition nodes t px py (l :: rest)
          = getLinkAtPosition nodes t px py rest →
        ((getLinkAtPosition nodes t px py (l :: rest)).isSome
          ↔ ∃ m ∈ l :: rest, linkHitP nodes t px py m) := by
      intro hnot heq
      rw [heq, ih]
      constructor
      · rintro ⟨m, hm, hhit⟩
        exact ⟨m, List.mem_cons_of_mem _ hm, hhit⟩
      · rintro ⟨m, hm, hhit⟩
        rcases List.mem_cons.mp hm with rfl | hm2
        · exact absurd hhit hnot
        · exact ⟨m, hm2, hhit⟩
    cases hs : resolveSimEnd nodes l.source with
    | none =>
      refine tailIff ?_ (getLinkAtPosition_cons_skipRes nodes t px py l rest (Or.inl hs))
      intro hhit
      have := (linkHitP_resolves hhit).1
      rw [hs] at this
      cases this
    | some sn =>
      cases ht : resolveSimEnd nodes l.target with
      | none =>
        refine tailIff ?_ (getLinkAtPosition_cons_skipRes nodes t px py l rest (Or.inr ht))
        intro hhit
        have := (linkHitP_resolves hhit).2
        rw [ht] at this
        cases this
      | some tn =>
        cases hsx : sn.x with
        | none =>
          refine tailIff ?_
            (getLinkAtPosition_cons_skipPos nodes t px py l rest sn tn hs ht (Or.inl hsx))
          intro hhit
          rcases linkHitP_elim hhit hs ht with ⟨sx, _, _, _, hx2, _⟩
          rw [hsx] at hx2
          cases hx2
        | some sx =>
          cases hsy : sn.y with
          | none =>
            refine tailIff ?_ (getLinkAtPosition_cons_skipPos nodes t px py l rest sn tn
              hs ht (Or.inr (Or.inl hsy)))
            intro hhit
            rcases linkHitP_elim hhit hs ht with ⟨_, sy, _, _, _, hy2, _⟩
            rw [hsy] at hy2
            cases hy2
          | some sy =>
            cases htx : tn.x with
            | none =>
              refine tailIff ?_ (getLinkAtPosition_cons_skipPos nodes t px py l rest sn tn
                hs ht (Or.inr (Or.inr (Or.inl htx))))
              intro hhit
              rcases linkHitP_elim hhit hs ht with ⟨_, _, tx, _, _, _, hx2, _⟩
              rw [htx] at hx2
              cases hx2
            | some tx =>
              cases hty : tn.y with
              | none =>
                refine tailIff ?_ (getLinkAtPosition_cons_skipPos nodes t px py l rest sn tn
                  hs ht (Or.inr (Or.inr (Or.inr hty))))
                intro hhit
                rcases linkHitP_elim hhit hs ht with ⟨_, _, _, ty, _, _, _, hy2, _⟩
                rw [hty] at hy2
                cases hy2
              | some ty =>
                by_cases hlen : segLen sx sy tx ty = 0
                · refine tailIff ?_ ?_
                  · intro hhit
                    rcases linkHitP_elim hhit hs ht with ⟨sx2, sy2, tx2, ty2,
                      hx2, hy2, hx3, hy3, hlen2, _⟩
                    rw [hsx] at hx2
                    rw [hsy] at hy2
                    rw [htx] at hx3
                    rw [hty] at hy3
                    cases hx2
                    cases hy2
                    cases hx3
                    cases hy3
                    exact absurd hlen hlen2
                  · rw [getLinkAtPosition_cons nodes t px py l rest sn tn sx sy tx ty
                      hs ht hsx hsy htx hty, if_pos hlen]
                · by_cases hd : segDist t px py sx sy tx ty ≤ 5 / t.k
                  · rw [getLinkAtPosition_cons nodes t px py l rest sn tn sx sy tx ty
                      hs ht hsx hsy htx hty, if_neg hlen, if_pos hd]
                    simp only [Option.isSome_some, true_iff]
                    exact ⟨l, List.mem_cons_self _ _,
                      sn, tn, sx, sy, tx, ty, hs, ht, hsx, hsy, htx, hty, hlen, hd⟩
                  · refine tailIff ?_ ?_
                    · intro hhit
                      rcases linkHitP_elim hhit hs ht with ⟨sx2, sy2, tx2, ty2,
                        hx2, hy2, hx3, hy3, _, hd2⟩
                      rw [hsx] at hx2
                      rw [hsy] at hy2
                      rw [htx] at hx3
                      rw [hty] at hy3
                      cases hx2
                      cases hy2
                      cases hx3
                      cases hy3
                      exact absurd hd2 hd
                    · rw [getLinkAtPosition_cons nodes t px py l rest sn tn sx sy tx ty
                        hs ht hsx hsy htx hty, if_neg hlen, if_neg hd]

/-- The link returned by the hit-test is the first hit in iteration order. -/
theorem getLinkAtPosition_first (nodes : List SimNode) (t : ViewTransform)
    (px py : ℝ) : ∀ (links : List SimLink) (m : SimLink),
    getLinkAtPosition nodes t px py links = some m →
    ∃ pre post, links = pre ++ m :: post ∧ linkHitP nodes t px py m
      ∧ ∀ q ∈ pre, ¬ linkHitP nodes t px py q := by
  intro links
  induction links with
  | nil =>
    intro m hm
    rw [getLinkAtPosition_nil] at hm
    cases hm
  | cons l rest ih =>
    intro m hm
    have tailFirst : ¬ linkHitP nodes t px py l →
        getLinkAtPosition nodes t px py (l :: rest)
          = getLinkAtPosition nodes t px py rest →
        ∃ pre post, l :: rest = pre ++ m :: post ∧ linkHitP nodes t px py m
          ∧ ∀ q ∈ pre, ¬ linkHitP nodes t px py q := by
      intro hnot heq
      rw [heq] at hm
      rcases ih m hm with ⟨pre, post, heq2, hhit, hpre⟩
      refine ⟨l :: pre, post, by simp [heq2], hhit, ?_⟩
      intro q hq
      rcases List.mem_cons.mp hq with rfl | hq2
      · exact hnot
      · exact hpre q hq2
    cases hs : resolveSimEnd nodes l.source with
    | none =>
      refine tailFirst ?_ (getLinkAtPosition_cons_skipRes nodes t px py l rest (Or.inl hs))
      intro hhit
      have := (linkHitP_resolves hhit).1
      rw [hs] at this
      cases this
    | some sn =>
      cases ht : resolveSimEnd nodes l.target with
      | none =>
        refine tailFirst ?_ (getLinkAtPosition_cons_skipRes nodes t px py l rest (Or.inr ht))
        intro hhit
        have := (linkHitP_resolves hhit).2
        rw [ht] at this
        cases this
      | some tn =>
        cases hsx : sn.x with
        | none =>
          refine tailFirst ?_
            (getLinkAtPosition_cons_skipPos nodes t px py l rest sn tn hs ht (Or.inl hsx))
          intro hhit
          rcases linkHitP_elim hhit hs ht with ⟨sx, _, _, _, hx2, _⟩
          rw [hsx] at hx2
          cases hx2
        | some sx =>
          cases hsy : sn.y with
          | none =>
            refine tailFirst ?_ (getLinkAtPosition_cons_skipPos nodes t px py l rest sn tn
              hs ht (Or.inr (Or.inl hsy)))
            intro hhit
            rcases linkHitP_elim hhit hs ht with ⟨_, sy, _, _, _, hy2, _⟩
            rw [hsy] at hy2
            cases hy2
          | some sy =>
            cases htx : tn.x with
            | none =>
              refine tailFirst ?_ (getLinkAtPosition_cons_skipPos nodes t px py l rest sn tn
                hs ht (Or.inr (Or.inr (Or.inl htx))))
              intro hhit
              rcases linkHitP_elim hhit hs ht with ⟨_, _, tx, _, _, _, hx2, _⟩
              rw [htx] at hx2
              cases hx2
            | some tx =>
              cases hty : tn.y with
              | none =>
                refine tailFirst ?_ (getLinkAtPosition_cons_skipPos nodes t px py l rest sn tn
                  hs ht (Or.inr (Or.inr (Or.inr hty))))
                intro hhit
                rcases linkHitP_elim hhit hs ht with ⟨_, _, _, ty, _, _, _, hy2, _⟩
                rw [hty] at hy2
                cases hy2
              | some ty =>
                by_cases hlen : segLen sx sy tx ty = 0
                · refine tailFirst ?_ ?_
                  · intro hhit
                    rcases linkHitP_elim hhit hs ht with ⟨sx2, sy2, tx2, ty2,
                      hx2, hy2, hx3, hy3, hlen2, _⟩
                    rw [hsx] at hx2
                    rw [hsy] at hy2
                    rw [htx] at hx3
                    rw [hty] at hy3
                    cases hx2
                    cases hy2
                    cases hx3
                    cases hy3
                    exact absurd hlen hlen2
                  · rw [getLinkAtPosition_cons nodes t px py l rest sn tn sx sy tx ty
                      hs ht hsx hsy htx hty, if_pos hlen]
                · by_cases hd : segDist t px py sx sy tx ty ≤ 5 / t.k
                  · rw [getLinkAtPosition_cons nodes t px py l rest sn tn sx sy tx ty
                      hs ht hsx hsy htx hty, if_neg hlen, if_pos hd] at hm
                    cases hm
                    exact ⟨[], rest, rfl,
                      ⟨sn, tn, sx, sy, tx, ty, hs, ht, hsx, hsy, htx, hty, hlen, hd⟩,
                      by simp⟩
                  · refine tailFirst ?_ ?_
                    · intro hhit
                      rcases linkHitP_elim hhit hs ht with ⟨sx2, sy2, tx2, ty2,
                        hx2, hy2, hx3, hy3, _, hd2⟩
                      rw [hsx] at hx2
                      rw [hsy] at hy2
                      rw [htx] at hx3
                      rw [hty] at hy3
                      cases hx2
                      cases hy2
                      cases hx3
                      cases hy3
                      exact absurd hd2 hd
                    · rw [getLinkAtPosition_cons nodes t px py l rest sn tn sx sy tx ty
                        hs ht hsx hsy htx hty, if_neg hlen, if_neg hd]

/-- C6 counterexample: the claim states the link hit-test returns a link
exactly when the clamped-projection distance to the segment is at most
5 / k. For the degenerate link whose endpoints coincide at the origin and
the pointer on top of it, that distance is 0 and the threshold 5, yet
getLinkAtPosition skips zero-length segments and returns none. -/
theorem C6_counterexample :
    segDist ⟨1, 0, 0⟩ 0 0 0 0 0 0 = 0
    ∧ ((0 : ℝ) ≤ 5 / (1 : ℝ))
    ∧ getLinkAtPosition [originNode] ⟨1, 0, 0⟩ 0 0 [selfLink] = none := by
  refine ⟨?_, by norm_num, ?_⟩
  · simp only [segDist, segLen]
    norm_num [Real.sqrt_zero]
  · rw [getLinkAtPosition_cons [originNode] ⟨1, 0, 0⟩ 0 0 selfLink []
      originNode originNode 0 0 0 0 rfl rfl rfl rfl rfl rfl, if_pos, getLinkAtPosition_nil]
    simp only [segLen]
    norm_num [Real.sqrt_zero]

/-- C6 (amended): restricted to links whose endpoints resolve to nodes
with both coordinates present at distinct positions (nonzero segment
length), the hit-test is exact: it returns some link precisely when such a
link lies within the clamped-projection distance 5 / k of the
inverse-transformed pointer, the first such link in iteration order is
returned, the screen point over the midpoint of such a segment satisfies
the hit predicate (so the hit-test there returns a link), and when no link
qualifies the result is none. Zero-length segments are skipped even when
the pointer is within the threshold. -/
theorem C6_amended (nodes : List SimNode) (t : ViewTransform) :
    (∀ px py links, (getLinkAtPosition nodes t px py links).isSome
      ↔ ∃ l ∈ links, linkHitP nodes t px py l)
    ∧ (∀ px py links m, getLinkAtPosition nodes t px py links = some m →
        ∃ pre post, links = pre ++ m :: post ∧ linkHitP nodes t px py m
          ∧ ∀ q ∈ pre, ¬ linkHitP nodes t px py q)
    ∧ (∀ (l : SimLink) (sn tn : SimNode) (sx sy tx ty : ℝ), 0 < t.k →
        resolveSimEnd nodes l.source = some sn →
        resolveSimEnd nodes l.target = some tn →
        sn.x = some sx → sn.y = some sy → tn.x = some tx → tn.y = some ty →
        segLen sx sy tx ty ≠ 0 →
        linkHitP nodes t (((sx + tx) / 2) * t.k + t.x) (((sy + ty) / 2) * t.k + t.y) l)
    ∧ (∀ px py links, (∀ q ∈ links, ¬ linkHitP nodes t px py q) →
        getLinkAtPosition nodes t px py links = none) := by
  refine ⟨getLinkAtPosition_isSome_iff nodes t,
    getLinkAtPosition_first nodes t, ?_, ?_⟩
  · intro l sn tn sx sy tx ty hk hs ht hsx hsy htx hty hlen
    have hk0 : t.k ≠ 0 := ne_of_gt hk
    refine ⟨sn, tn, sx, sy, tx, ty, hs, ht, hsx, hsy, htx, hty, hlen, ?_⟩
    have hD : (0 : ℝ) ≤ (tx - sx) * (tx - sx) + (ty - sy) * (ty - sy) :=
      add_nonneg (mul_self_nonneg _) (mul_self_nonneg _)
    have hDne : (tx - sx) * (tx - sx) + (ty - sy) * (ty - sy) ≠ 0 := by
      intro h0
      apply hlen
      rw [segLen, h0, Real.sqrt_zero]
    have hax : (((sx + tx) / 2) * t.k + t.x - t.x) / t.k = (sx + tx) / 2 := by
      field_simp
      ring
    have hay : (((sy + ty) / 2) * t.k + t.y - t.y) / t.k = (sy + ty) / 2 := by
      field_simp
      ring
    have hmul : segLen sx sy tx ty * segLen sx sy tx ty
        = (tx - sx) * (tx - sx) + (ty - sy) * (ty - sy) := Real.mul_self_sqrt hD
    have hnum : ((sx + tx) / 2 - sx) * (tx - sx) + ((sy + ty) / 2 - sy) * (ty - sy)
        = ((tx - sx) * (tx - sx) + (ty - sy) * (ty - sy)) / 2 := by ring
    have hhalf : ((tx - sx) * (tx - sx) + (ty - sy) * (ty - sy)) / 2
        / ((tx - sx) * (tx - sx) + (ty - sy) * (ty - sy)) = 1 / 2 := by
      field_simp
      ring
    have key : segDist t (((sx + tx) / 2) * t.k + t.x) (((sy + ty) / 2) * t.k + t.y)
        sx sy tx ty = 0 := by
      simp only [segDist]
      rw [hax, hay, hmul, hnum, hhalf]
      rw [show max (0 : ℝ) (min 1 (1 / 2)) = 1 / 2 by norm_num]
      rw [show ((sx + tx) / 2 - (sx + 1 / 2 * (tx - sx))) ^ 2
          + ((sy + ty) / 2 - (sy + 1 / 2 * (ty - sy))) ^ 2 = 0 from by ring]
      exact Real.sqrt_zero
    rw [key]
    positivity
  · intro px py links hall
    have := (getLinkAtPosition_isSome_iff nodes t px py links).not
    rw [Option.not_isSome_iff_eq_none] at this
    apply this.mpr
    rintro ⟨l, hl, hhit⟩
    exact hall l hl hhit

/-- Witness for C6 (amended): the midpoint of the segment from (0, 0) to
(10, 0) satisfies the hit predicate and the hit-test there returns a link. -/
theorem C6_amended_witness :
    (0 : ℝ) < 1
    ∧ linkHitP [] ⟨1, 0, 0⟩ (((0 + 10) / 2) * 1 + 0) (((0 + 0) / 2) * 1 + 0) abLink
    ∧ (getLinkAtPosition [] ⟨1, 0, 0⟩ (((0 + 10) / 2) * 1 + 0) (((0 + 0) / 2) * 1 + 0)
        [abLink]).isSome := by
  have hlen : segLen 0 0 10 0 ≠ 0 := by
    rw [segLen]
    rw [Real.sqrt_ne_zero']
    norm_num
  have hhit := (C6_amended [] ⟨1, 0, 0⟩).2.2.1 abLink originNode nodeTen 0 0 10 0
    (by norm_num) rfl rfl rfl rfl rfl rfl hlen
  refine ⟨by norm_num, hhit, ?_⟩
  exact ((C6_amended [] ⟨1, 0, 0⟩).1 _ _ [abLink]).mpr ⟨abLink, by simp, hhit⟩

/-!
Claim C8: draw and hit-tests are total over partial data.
-/

theorem exceptMapM_ok {α β : Type} (f : α → Except Unit β) :
    ∀ l : List α, (∀ a ∈ l, ∃ b, f a = .ok b) → ∃ bs, l.mapM f = .ok bs := by
  intro l
  induction l with
  | nil => exact fun _ => ⟨[], rfl⟩
  | cons a l ih =>
    intro h
    rcases h a (by simp) with ⟨b, hb⟩
    rcases ih (fun x hx => h x (by simp [hx])) with ⟨bs, hbs⟩
    refine ⟨b :: bs, ?_⟩
    rw [List.mapM_cons, hb, hbs]
    rfl

theorem drawLinkCmd_ok (nodes : List SimNode) (k : ℝ) (lc : SimLink → String)
    (lw : SimLink → ℝ) (l : SimLink) : ∃ cs, drawLinkCmd nodes k lc lw l = .ok cs := by
  unfold drawLinkCmd
  cases resolveSimEnd nodes l.source with
  | none => cases resolveSimEnd nodes l.target <;> exact ⟨[], rfl⟩
  | some sn =>
    cases resolveSimEnd nodes l.target with
    | none => exact ⟨[], rfl⟩
    | some tn =>
      cases hsx : sn.x with
      | none => exact ⟨[], by simp [hsx]⟩
      | some sx =>
        cases hsy : sn.y with
        | none => exact ⟨[], by simp [hsx, hsy]⟩
        | some sy =>
          cases htx : tn.x with
          | none => exact ⟨[], by simp [hsx, hsy, htx]⟩
          | some tx =>
            cases hty : tn.y with
            | none => exact ⟨[], by simp [hsx, hsy, htx, hty]⟩
            | some ty =>
              refine ⟨[.strokeLine sx sy tx ty (lc l) (lw l / k)], ?_⟩
              simp only [hsx, hsy, htx, hty, jsNum, Option.isNone_some, Bool.or_self,
                Bool.false_or, if_false]
              rfl

theorem drawNodeCmd_ok (k : ℝ) (nc : SimNode → String) (ns : SimNode → ℝ) (n : SimNode) :
    ∃ cs, drawNodeCmd k nc ns n = .ok cs := by
  unfold drawNodeCmd
  cases hx : n.x with
  | none => exact ⟨[], by simp [hx]⟩
  | some nx =>
    cases hy : n.y with
    | none => exact ⟨[], by simp [hx, hy]⟩
    | some ny =>
      refine ⟨[.fillCircle nx ny (ns n / k) (nc n) (1.5 / k)], ?_⟩
      simp only [hx, hy, jsNum, Option.isNone_some, Bool.or_self, if_false]
      rfl

/-- C8: draw and both hit-tests are total over partial data. Conjuncts:
draw never throws (it always returns ok); with no canvas or no 2d context
it is a no-op returning no commands; the node hit-test skips a node
missing either coordinate; the link hit-test skips a link with an
unresolvable endpoint; the draw link pass emits nothing for a link with an
unresolvable endpoint, and the draw node pass emits nothing for a node
missing a coordinate. -/
theorem C8_draw_total (canvasOk ctxOk : Bool) (width height : ℝ) (bg : String)
    (linkColor : SimLink → String) (linkWidth : SimLink → ℝ)
    (nodeColor : SimNode → String) (nodeSize : SimNode → ℝ) (t : ViewTransform)
    (nodes : List SimNode) (links : List SimLink) :
    (∃ cmds, draw canvasOk ctxOk width height bg linkColor linkWidth nodeColor nodeSize
        t nodes links = .ok cmds)
    ∧ draw false ctxOk width height bg linkColor linkWidth nodeColor nodeSize
        t nodes links = .ok []
    ∧ draw canvasOk false width height bg linkColor linkWidth nodeColor nodeSize
        t nodes links = .ok []
    ∧ (∀ (i : JSStr) (y vx vy fx fy : Option ℝ) (rest : List SimNode) (px py : ℝ),
        getNodeAtPosition nodeSize t px py (⟨i, none, y, vx, vy, fx, fy⟩ :: rest)
          = getNodeAtPosition nodeSize t px py rest)
    ∧ (∀ (i : JSStr) (x vx vy fx fy : Option ℝ) (rest : List SimNode) (px py : ℝ),
        getNodeAtPosition nodeSize t px py (⟨i, x, none, vx, vy, fx, fy⟩ :: rest)
          = getNodeAtPosition nodeSize t px py rest)
    ∧ (∀ (l : SimLink) (rest : List SimLink) (px py : ℝ),
        resolveSimEnd nodes l.source = none ∨ resolveSimEnd nodes l.target = none →
        getLinkAtPosition nodes t px py (l :: rest) = getLinkAtPosition nodes t px py rest)
    ∧ (∀ l : SimLink,
        resolveSimEnd nodes l.source = none ∨ resolveSimEnd nodes l.target = none →
        drawLinkCmd nodes t.k linkColor linkWidth l = .ok [])
    ∧ (∀ n : SimNode, n.x = none ∨ n.y = none →
        drawNodeCmd t.k nodeColor nodeSize n = .ok []) := by
  refine ⟨?_, ?_, ?_, ?_, ?_, ?_, ?_, ?_⟩
  · cases canvasOk with
    | false => exact ⟨[], rfl⟩
    | true =>
      cases ctxOk with
      | false => exact ⟨[], rfl⟩
      | true =>
        rcases exceptMapM_ok (drawLinkCmd nodes t.k linkColor linkWidth) links
          (fun l _ => drawLinkCmd_ok nodes t.k linkColor linkWidth l) with ⟨lc, hlc⟩
        rcases exceptMapM_ok (drawNodeCmd t.k nodeColor nodeSize) nodes
          (fun n _ => drawNodeCmd_ok t.k nodeColor nodeSize n) with ⟨nc, hnc⟩
        refine ⟨[DrawCmd.clearRect width height, DrawCmd.fillRect bg width height]
          ++ lc.flatten ++ nc.flatten, ?_⟩
        unfold draw
        rw [show (!true) = false from rfl]
        simp only [Bool.false_eq_true, if_false]
        rw [hlc, hnc]
        rfl
  · exact rfl
  · cases canvasOk <;> rfl
  · intro i y vx vy fx fy rest px py
    exact getNodeAtPosition_cons_skip nodeSize t px py _ rest (Or.inl rfl)
  · intro i x vx vy fx fy rest px py
    exact getNodeAtPosition_cons_skip nodeSize t px py _ rest (Or.inr rfl)
  · intro l rest px py h
    exact getLinkAtPosition_cons_skipRes nodes t px py l rest h
  · intro l h
    unfold drawLinkCmd
    rcases h with h | h
    · rw [h]
    · rw [h]
      cases resolveSimEnd nodes l.source <;> rfl
  · intro n h
    unfold drawNodeCmd
    rcases h with h | h <;> simp [h]

/-- Witness for C8 at concrete partial data: an unresolvable link endpoint
and a node without coordinates are skipped without an exception. -/
theorem C8_draw_total_witness :
    (resolveSimEnd [] (SimEnd.idRef (some "z")) = none
      ∨ resolveSimEnd [] (SimEnd.idRef (some "w")) = none)
    ∧ drawLinkCmd [] 1 (fun _ => "c") (fun _ => 1)
        ⟨.idRef (some "z"), .idRef (some "w"), .tag⟩ = .ok []
    ∧ drawNodeCmd 1 (fun _ => "c") (fun _ => 5)
        ⟨some "a", none, none, none, none, none, none⟩ = .ok [] := by
  have h := C8_draw_total true true 900 600 "w" (fun _ => "c") (fun _ => 1)
    (fun _ => "c") (fun _ => 5) ⟨1, 0, 0⟩ [] []
  exact ⟨Or.inl rfl,
    h.2.2.2.2.2.2.1 ⟨.idRef (some "z"), .idRef (some "w"), .tag⟩ (Or.inl rfl),
    h.2.2.2.2.2.2.2 ⟨some "a", none, none, none, none, none, none⟩ (Or.inl rfl)⟩

/-!
Claim C10: fetchers never deliver data after the abort signal is set.
-/

/-- Every data callback the pagination loop fires happens at an instant at
which the abort flag, checked after the last await, was still unset. -/
theorem indexLoop_unaborted (aborted : ℕ → Bool) (pF oF : ℕ → MurPage) (tpp top : ℕ) :
    ∀ (N pp op time : ℕ) (people orgs : List ProfileRec),
    (5 - pp) + (5 - op) ≤ N → aborted time = false →
    ∀ e ∈ indexLoop aborted pF oF tpp top pp op time people orgs,
      aborted e.time = false := by
  intro N
  induction N with
  | zero =>
    intro pp op time people orgs hN htime e he
    rw [indexLoop] at he
    rw [if_neg (by omega : ¬ ((pp < tpp ∨ op < top) ∧ pp < 5 ∧ op < 5))] at he
    simp only [List.mem_singleton] at he
    rw [he]
    exact htime
  | succ N ih =>
    intro pp op time people orgs hN htime e he
    rw [indexLoop] at he
    by_cases hc : (pp < tpp ∨ op < top) ∧ pp < 5 ∧ op < 5
    · rw [if_pos hc] at he
      rcases List.mem_cons.mp he with rfl | he2
      · exact htime
      · by_cases hpp : pp < tpp
        · rw [dif_pos hpp] at he2
          by_cases hab1 : aborted (time + 1) = true
          · rw [if_pos hab1] at he2
            cases he2
          · rw [if_neg hab1] at he2
            by_cases hop : op < top
            · rw [dif_pos hop] at he2
              by_cases hab2 : aborted (time + 2) = true
              · rw [if_pos hab2] at he2
                cases he2
              · rw [if_neg hab2] at he2
                exact ih (pp + 1) (op + 1) (time + 2) _ _ (by omega)
                  (by simpa using hab2) e he2
            · rw [dif_neg hop] at he2
              exact ih (pp + 1) op (time + 1) _ _ (by omega)
                (by simpa using hab1) e he2
        · rw [dif_neg hpp] at he2
          by_cases hop : op < top
          · rw [dif_pos hop] at he2
            by_cases hab1 : aborted (time + 1) = true
            · rw [if_pos hab1] at he2
              cases he2
            · rw [if_neg hab1] at he2
              exact ih pp (op + 1) (time + 1) _ _ (by omega)
                (by simpa using hab1) e he2
          · rw [dif_neg hop] at he2
            cases he2
    · rw [if_neg hc] at he
      simp only [List.mem_singleton] at he
      rw [he]
      exact htime

/-- C10: once the abort signal is set (monotonically: an AbortController
never resets), none of the network data fetchers invokes its data callback
again: every emission of flatMurmurationsMap, flatKumuMap and the
Murmurations Test Index fetcher happens strictly before the signal was
set, because each synchronous stretch that fires the callback is entered
only after observing the flag unset at its last resumption. -/
theorem C10_fetchers_respect_abort (aborted : ℕ → Bool)
    (hmono : ∀ i j, i ≤ j → aborted i = true → aborted j = true)
    (t0 : ℕ) (h0 : aborted t0 = true) :
    (∀ fetched, ∀ e ∈ flatMurmurationsMapRun aborted fetched, e.time < t0)
    ∧ (∀ fetched domain tags, ∀ e ∈ flatKumuMapRun aborted fetched domain tags,
        e.time < t0)
    ∧ (∀ pF oF : ℕ → MurPage, ∀ e ∈ murmurationsIndexRun aborted pF oF,
        e.time < t0) := by
  have hlt : ∀ tm : ℕ, aborted tm = false → tm < t0 := by
    intro tm htm
    by_contra hge
    have := hmono t0 tm (by omega) h0
    rw [this] at htm
    cases htm
  refine ⟨?_, ?_, ?_⟩
  · intro fetched e he
    cases fetched with
    | error u => cases he
    | ok res =>
      rw [flatMurmurationsMapRun] at he
      by_cases hab : aborted 1 = true
      · rw [if_pos hab] at he
        cases he
      · rw [if_neg hab] at he
        simp only [List.mem_singleton] at he
        rw [he]
        exact hlt 1 (by simpa using hab)
  · intro fetched domain tags e he
    cases fetched with
    | error u => cases he
    | ok res =>
      rw [flatKumuMapRun] at he
      by_cases hab : aborted 1 = true
      · rw [if_pos hab] at he
        cases he
      · rw [if_neg hab] at he
        simp only [List.mem_singleton] at he
        rw [he]
        exact hlt 1 (by simpa using hab)
  · intro pF oF e he
    rw [murmurationsIndexRun] at he
    by_cases hab : aborted 1 = true
    · rw [if_pos hab] at he
      cases he
    · rw [if_neg hab] at he
      by_cases hone : (oF 1).total_pages = 1 ∧ (pF 1).total_pages = 1
      · rw [if_pos hone] at he
        simp only [List.mem_singleton] at he
        rw [he]
        exact hlt 1 (by simpa using hab)
      · rw [if_neg hone] at he
        have := indexLoop_unaborted aborted pF oF (pF 1).total_pages (oF 1).total_pages
          10 1 1 1 (pF 1).pageData (oF 1).pageData (by omega) (by simpa using hab) e he
        exact hlt e.time this

/-- Witness for C10 with a signal that becomes set at time 2. -/
theorem C10_fetchers_respect_abort_witness :
    (∀ i j : ℕ, i ≤ j → (fun t => decide (2 ≤ t)) i = true
      → (fun t => decide (2 ≤ t)) j = true)
    ∧ (fun t => decide (2 ≤ t)) 2 = true
    ∧ (∀ e ∈ flatMurmurationsMapRun (fun t => decide (2 ≤ t)) (.ok [aliceRec]),
        e.time < 2)
    ∧ (∀ e ∈ murmurationsIndexRun (fun t => decide (2 ≤ t))
        (fun _ => ⟨[aliceRec], 1⟩) (fun _ => ⟨[], 1⟩), e.time < 2) := by
  have hmono : ∀ i j : ℕ, i ≤ j → (fun t => decide (2 ≤ t)) i = true
      → (fun t => decide (2 ≤ t)) j = true := by
    intro i j hij hi
    simp only [decide_eq_true_eq] at hi ⊢
    omega
  have h := C10_fetchers_respect_abort (fun t => decide (2 ≤ t)) hmono 2 (by decide)
  exact ⟨hmono, by decide, h.1 (.ok [aliceRec]), h.2.2 _ _⟩

/-!
Claim C1: reconciliation and the preservation of simulation positions.
-/

/-- C1 failing input: reconciling the identical single-person dataset a
second time keeps the node a alive (the reconciler returns the same graph,
so a is live before and after the pass), yet the render update rebuilds
the simulation node array from fresh shallow copies of the graph nodes,
which carry no simulation state; d3 therefore re-seeds the position of a
at the phyllotaxis point for index 0, 10 * sqrt(0.5) scaled by cos 0,
instead of keeping the live position x = 50. The spec and the comment
above the reconciler (preserve the existing simulation) require the
position to be unchanged. -/
theorem C1_reconcile_resets_positions :
    setDataReconcile [aliceRec] aliceGraph aliceRaw .all false false
      = .ok ([aliceRec], aliceGraph)
    ∧ aliceSim.nodes.map SimNode.x = [some 50]
    ∧ (∃ s2, renderUpdate (some aliceSim) aliceGraph 900 600 = .ok (some s2)
        ∧ s2.nodes.map SimNode.id = [some "a"]
        ∧ s2.nodes.map SimNode.x = [some (phyllotaxisX 0)])
    ∧ phyllotaxisX 0 ≠ 50 := by
  have hinit : d3InitNodes (simulationNodesOf aliceGraph.nodes)
      = [⟨some "a", some (phyllotaxisX 0), some (phyllotaxisY 0), some 0, some 0,
          none, none⟩] := by
    simp [simulationNodesOf, aliceGraph, aliceNode, d3InitNodes, d3InitNodesFrom,
      d3InitNode]
  have hphy : phyllotaxisX 0 = 10 * Real.sqrt 0.5 := by
    rw [phyllotaxisX]
    norm_num
  refine ⟨by rfl, rfl, ?_, ?_⟩
  · refine ⟨{ aliceSim with
        nodes := d3InitNodes (simulationNodesOf aliceGraph.nodes), links := [],
        centerX := 900 / 2, centerY := 600 / 2, alpha := 1, running := true }, ?_, ?_, ?_⟩
    · show (do
        let links ← simLinksOf aliceGraph.links
        return simulationEffect (some aliceSim) (simulationNodesOf aliceGraph.nodes)
          links 900 600) = _
      rw [show simLinksOf aliceGraph.links = .ok [] from rfl]
      show Except.ok (simulationEffect (some aliceSim)
        (simulationNodesOf aliceGraph.nodes) [] 900 600) = _
      simp only [simulationEffect, simulationNodesOf, aliceGraph, aliceNode,
        List.map_cons, List.map_nil, List.isEmpty_cons, if_false]
      rfl
    · rw [hinit]
      rfl
    · rw [hinit]
      rfl
  · rw [hphy]
    have hlt : Real.sqrt 0.5 < 1 := by
      rw [show (1 : ℝ) = Real.sqrt 1 from (Real.sqrt_one).symm]
      exact Real.sqrt_lt_sqrt (by norm_num) (by norm_num)
    have hge : (0 : ℝ) ≤ Real.sqrt 0.5 := Real.sqrt_nonneg _
    intro heq
    nlinarith

/-!
Claim C4: unresolvable link endpoints.
-/

/-- C4 failing input: network B (iterated first) supplies Alice at urlB,
network A supplies Alice at urlA carrying tag t, and urlA is live from an
earlier pass. The pass merges the network A record away (duplicate name),
so urlA leaves the seen set and its node is removed, but the tag link from
urlA passes the visibility check through the stale live set and is kept;
its source resolves to nothing and the non-null assertion stores undefined
instead of discarding the link. The simulationData conversion then reads
id off the undefined endpoint and throws, so the unresolvable link is not
silently discarded and the graph does not render. -/
theorem C4_unresolved_link_crashes :
    ∃ h2 g2, setDataReconcile [crashAliceA, crashAliceB] ⟨[crashPrevNode], []⟩ crashRaw
        .all false true = .ok (h2, g2)
      ∧ g2.links = [⟨.undefined, .node (tagNodeOf "A" "t"), .tag⟩]
      ∧ simLinksOf g2.links = .error ()
      ∧ crashPrevNode.id = some "urlA"
      ∧ (∀ n ∈ g2.nodes, n.id ≠ some "urlA") := by
  refine ⟨[crashAliceA, { crashAliceB with tags := some ["t"] }],
    ⟨[⟨some "urlB", "Alice", .person, ["B"], .profileRef 1⟩, tagNodeOf "A" "t"],
     [⟨.undefined, .node (tagNodeOf "A" "t"), .tag⟩]⟩, by rfl, rfl, rfl, rfl, by decide⟩

/-!
Claim C3: duplicate-name merging.
-/

theorem mergeScalar_keep (e p : JSStr) (h : jsTruthy e = true) : mergeScalar e p = e := by
  simp [mergeScalar, h]

theorem mergeScalar_fill (e p : JSStr) (he : jsTruthy e = false)
    (hp : jsTruthy p = true) : mergeScalar e p = p := by
  simp [mergeScalar, he, hp]

theorem mergeScalar_skip (e p : JSStr) (hp : jsTruthy p = false) : mergeScalar e p = e := by
  simp [mergeScalar, hp]

theorem mergeArr_mem {α : Type} [DecidableEq α] (e p : Option (List α)) (x : α) :
    x ∈ (mergeArr e p).getD [] ↔ x ∈ e.getD [] ∨ x ∈ p.getD [] := by
  cases p with
  | none => simp [mergeArr]
  | some ts => simp [mergeArr, jsSetDedup_mem]

/-- C3 counterexample: the claim states that two input records sharing a
name are merged into one simulation entity. Two organizations named X with
distinct profile urls are not merged: the pass yields two separate
organization nodes (orgs never consult the seen-names map). -/
theorem C3_counterexample :
    setDataReconcile [orgX1, orgX2] ⟨[], []⟩ [("N", ⟨[], [0, 1], true⟩)] .all false false
      = .ok ([orgX1, orgX2],
        ⟨[orgNodeOf [orgX1, orgX2] "N" 0, orgNodeOf [orgX1, orgX2] "N" 1], []⟩)
    ∧ orgX1.name = orgX2.name
    ∧ orgX1.profile_url ≠ orgX2.profile_url := by
  exact ⟨by rfl, rfl, by decide⟩

/-- C3 (amended): only a later person record whose name was already seen
in the pass is merged into the first-seen record; it produces no new
simulation entity and the shared record is updated in place by
mergeRecord. Organization records never merge (see the counterexample).
In mergeRecord, each of the scalar fields profile_url, primary_url,
description and image keeps the first-seen value whenever it is truthy and
is filled from the later record only when the existing value is falsy
(undefined or empty) and the incoming one truthy, so a truthy scalar is
never overwritten; each of the array fields tags, relationships and
linked_schemas becomes the set union of the two records' arrays. -/
theorem C3_amended (p1 p2 : ProfileRec) (hname : p2.name = p1.name) :
    setDataReconcile [p1, p2] ⟨[], []⟩ [("N", ⟨[0, 1], [], true⟩)] .all false false
      = .ok ([mergeRecord p1 p2, p2], ⟨[personNodeOf [p1, p2] "N" 0], []⟩)
    ∧ (∀ e p : ProfileRec,
        (jsTruthy e.profile_url = true →
          (mergeRecord e p).profile_url = e.profile_url)
      ∧ (jsTruthy e.profile_url = false → jsTruthy p.profile_url = true →
          (mergeRecord e p).profile_url = p.profile_url)
      ∧ (jsTruthy e.primary_url = true → (mergeRecord e p).primary_url = e.primary_url)
      ∧ (jsTruthy e.primary_url = false → jsTruthy p.primary_url = true →
          (mergeRecord e p).primary_url = p.primary_url)
      ∧ (jsTruthy e.description = true → (mergeRecord e p).description = e.description)
      ∧ (jsTruthy e.description = false → jsTruthy p.description = true →
          (mergeRecord e p).description = p.description)
      ∧ (jsTruthy e.image = true → (mergeRecord e p).image = e.image)
      ∧ (jsTruthy e.image = false → jsTruthy p.image = true →
          (mergeRecord e p).image = p.image)
      ∧ (∀ x, x ∈ (mergeRecord e p).tags.getD []
          ↔ x ∈ e.tags.getD [] ∨ x ∈ p.tags.getD [])
      ∧ (∀ x, x ∈ (mergeRecord e p).relationships.getD []
          ↔ x ∈ e.relationships.getD [] ∨ x ∈ p.relationships.getD [])
      ∧ (∀ x, x ∈ (mergeRecord e p).linked_schemas.getD []
          ↔ x ∈ e.linked_schemas.getD [] ∨ x ∈ p.linked_schemas.getD [])) := by
  constructor
  · have h1 : processPerson [] "N" ⟨[p1, p2], [], [], [], [], []⟩ 0
        = ⟨[p1, p2], [p1.profile_url], [], [(p1.name, 0)],
           [personNodeOf [p1, p2] "N" 0], []⟩ := by
      simp [processPerson, namesGet, namesSet, RecHeap.getP, personNodeOf]
    have h2 : processPerson [] "N"
        (⟨[p1, p2], [p1.profile_url], [], [(p1.name, 0)],
          [personNodeOf [p1, p2] "N" 0], []⟩ : PassState) 1
        = ⟨[mergeRecord p1 p2, p2], [p1.profile_url], [], [(p1.name, 0)],
           [personNodeOf [p1, p2] "N" 0], []⟩ := by
      simp [processPerson, namesGet, namesSet, RecHeap.getP, RecHeap.setP, hname]
    have hnet : networkPhase [] [] .all false
        (⟨[p1, p2], [], [], [], [], []⟩ : PassState)
        ("N", ⟨[0, 1], [], true⟩)
        = pure ⟨[mergeRecord p1 p2, p2], [p1.profile_url], [], [(p1.name, 0)],
            [personNodeOf [p1, p2] "N" 0], []⟩ := by
      simp [networkPhase, h1, h2]
    simp only [setDataReconcile, List.mapM_nil, pure_bind, List.foldlM_cons,
      List.foldlM_nil, List.map_nil]
    rw [hnet]
    simp [resolveLink]
    rfl
  · intro e p
    exact ⟨fun h => mergeScalar_keep _ _ h,
      fun he hp => mergeScalar_fill _ _ he hp,
      fun h => mergeScalar_keep _ _ h,
      fun he hp => mergeScalar_fill _ _ he hp,
      fun h => mergeScalar_keep _ _ h,
      fun he hp => mergeScalar_fill _ _ he hp,
      fun h => mergeScalar_keep _ _ h,
      fun he hp => mergeScalar_fill _ _ he hp,
      fun x => mergeArr_mem _ _ x,
      fun x => mergeArr_mem _ _ x,
      fun x => mergeArr_mem _ _ x⟩

/-- Witness for C3 (amended): two people named Alice, the later merged
into the first-seen record with no second node created. -/
theorem C3_amended_witness :
    dupAlice2.name = dupAlice1.name
    ∧ setDataReconcile [dupAlice1, dupAlice2] ⟨[], []⟩ [("N", ⟨[0, 1], [], true⟩)]
        .all false false
      = .ok ([mergeRecord dupAlice1 dupAlice2, dupAlice2],
             ⟨[personNodeOf [dupAlice1, dupAlice2] "N" 0], []⟩) :=
  ⟨rfl, (C3_amended dupAlice1 dupAlice2 rfl).1⟩

/-!
Claim C2: the reconciled node set. Groundwork: composite link keys with
dash-free components decompose uniquely, deduplication is the identity on
duplicate-free lists, and filters commute with maps and zips in the shapes
the reconciler uses.
-/

theorem dashFree_append (a b : String) (ha : dashFree a) (hb : dashFree b) :
    dashFree (a ++ b) := by
  intro c hc
  rw [String.data_append] at hc
  rcases List.mem_append.mp hc with h | h
  · exact ha c h
  · exact hb c h

theorem dashFree_of_not_mem (s : String) (h : '-' ∉ s.data) : dashFree s :=
  fun _ hc => ne_of_mem_of_not_mem hc h

theorem LinkTy_str_dashFree (ty : LinkTy) : dashFree ty.str := by
  cases ty <;> exact dashFree_of_not_mem _ (by decide)

theorem LinkTy_str_inj (t1 t2 : LinkTy) (h : t1.str = t2.str) : t1 = t2 := by
  cases t1 <;> cases t2 <;> revert h <;> decide

theorem string_data_inj (a b : String) (h : a.data = b.data) : a = b := by
  cases a
  cases b
  exact congrArg String.mk h

theorem splitDash_unique :
    ∀ (a1 : List Char) (b1 : List Char) (a2 : List Char) (b2 : List Char),
    (∀ c ∈ a1, c ≠ '-') → (∀ c ∈ a2, c ≠ '-') →
    a1 ++ '-' :: b1 = a2 ++ '-' :: b2 → a1 = a2 ∧ b1 = b2 := by
  intro a1
  induction a1 with
  | nil =>
    intro b1 a2 b2 _ ha2 h
    cases a2 with
    | nil => simpa using h
    | cons c a2 =>
      exfalso
      have hc : '-' = c := by simpa using congrArg (fun l => l.headD ' ') h
      exact ha2 c (by simp) hc.symm
  | cons c a1 ih =>
    intro b1 a2 b2 ha1 ha2 h
    cases a2 with
    | nil =>
      exfalso
      have hc : c = '-' := by simpa using congrArg (fun l => l.headD ' ') h
      exact ha1 c (by simp) hc
    | cons d a2 =>
      rw [List.cons_append, List.cons_append, List.cons_eq_cons] at h
      obtain ⟨hcd, htail⟩ := h
      obtain ⟨he, hb⟩ := ih b1 a2 b2 (fun x hx => ha1 x (by simp [hx]))
        (fun x hx => ha2 x (by simp [hx])) htail
      exact ⟨by rw [hcd, he], hb⟩

theorem mkLinkKey_data (u : String) (t : LinkTy) (v : String) :
    (mkLinkKey u t v).data = u.data ++ '-' :: (t.str.data ++ '-' :: v.data) := by
  have hdash : ("-" : String).data = ['-'] := rfl
  simp [mkLinkKey, String.data_append, hdash]

theorem mkLinkKey_inj (u1 v1 u2 v2 : String) (t1 t2 : LinkTy)
    (hu1 : dashFree u1) (hu2 : dashFree u2)
    (h : mkLinkKey u1 t1 v1 = mkLinkKey u2 t2 v2) :
    u1 = u2 ∧ t1 = t2 ∧ v1 = v2 := by
  have hd : u1.data ++ '-' :: (t1.str.data ++ '-' :: v1.data)
      = u2.data ++ '-' :: (t2.str.data ++ '-' :: v2.data) := by
    rw [← mkLinkKey_data, ← mkLinkKey_data, h]
  obtain ⟨hu, hrest⟩ := splitDash_unique u1.data _ u2.data _ hu1 hu2 hd
  obtain ⟨ht, hv⟩ := splitDash_unique t1.str.data _ t2.str.data _
    (LinkTy_str_dashFree t1) (LinkTy_str_dashFree t2) hrest
  exact ⟨string_data_inj _ _ hu,
    LinkTy_str_inj _ _ (string_data_inj _ _ ht), string_data_inj _ _ hv⟩

theorem jsSetDedup_foldl_of_disjoint {α : Type} [DecidableEq α] :
    ∀ (l acc : List α), l.Nodup → (∀ x ∈ l, x ∉ acc) →
    l.foldl (fun acc a => if a ∈ acc then acc else acc ++ [a]) acc = acc ++ l := by
  intro l
  induction l with
  | nil => intro acc _ _; simp
  | cons a l ih =>
    intro acc hnd hdisj
    rw [List.foldl_cons, if_neg (hdisj a (by simp))]
    rw [ih (acc ++ [a]) hnd.of_cons ?_]
    · simp
    · intro x hx
      rw [List.mem_append, List.mem_singleton]
      rintro (hxa | rfl)
      · exact hdisj x (by simp [hx]) hxa
      · exact (List.nodup_cons.mp hnd).1 hx

theorem jsSetDedup_eq_self {α : Type} [DecidableEq α] (l : List α) (h : l.Nodup) :
    jsSetDedup l = l := by
  rw [jsSetDedup, jsSetDedup_foldl_of_disjoint l [] h (by simp)]
  simp

theorem length_filter_partition {α : Type} (p q : α → Bool)
    (hpq : ∀ a, q a = !p a) :
    ∀ l : List α, (l.filter p).length + (l.filter q).length = l.length := by
  intro l
  induction l with
  | nil => rfl
  | cons a l ih =>
    rw [List.filter_cons, List.filter_cons, hpq]
    cases p a with
    | false =>
      rw [if_neg (by simp), if_pos (by simp)]
      simp only [List.length_cons]
      omega
    | true =>
      rw [if_pos rfl, if_neg (by simp)]
      simp only [List.length_cons]
      omega

theorem filter_mem_length_comm {α : Type} [DecidableEq α] (l1 l2 : List α)
    (p1 p2 : α → Bool)
    (hp1 : ∀ x, p1 x = true ↔ x ∈ l2) (hp2 : ∀ x, p2 x = true ↔ x ∈ l1)
    (h1 : l1.Nodup) (h2 : l2.Nodup) :
    (l1.filter p1).length = (l2.filter p2).length := by
  have e1 : (l1.filter p1).toFinset = l1.toFinset ∩ l2.toFinset := by
    ext x
    simp [List.mem_filter, hp1]
  have e2 : (l2.filter p2).toFinset = l1.toFinset ∩ l2.toFinset := by
    ext x
    simp [List.mem_filter, hp2]
    tauto
  rw [← List.toFinset_card_of_nodup (h1.filter _),
    ← List.toFinset_card_of_nodup (h2.filter _), e1, e2]

theorem zip_map_filterMap {α β : Type} (g : α → β) (P : β → Prop) [DecidablePred P] :
    ∀ l : List α,
    (l.zip (l.map g)).filterMap (fun lk => if P lk.2 then some lk.1 else none)
      = l.filter (fun a => P (g a)) := by
  intro l
  induction l with
  | nil => rfl
  | cons a l ih =>
    rw [List.map_cons, List.zip_cons_cons, List.filterMap_cons, List.filter_cons]
    by_cases h : P (g a)
    · rw [if_pos h, if_pos (by simpa using h), ih]
    · rw [if_neg h, if_neg (by simpa using h), ih]

theorem listMapM_ok {α β : Type} (f : α → Except Unit β) (g : α → β) :
    ∀ l : List α, (∀ a ∈ l, f a = .ok (g a)) → l.mapM f = .ok (l.map g) := by
  intro l
  induction l with
  | nil => intro _; rfl
  | cons a l ih =>
    intro h
    rw [List.mapM_cons, h a (by simp), ih (fun b hb => h b (by simp [hb]))]
    rfl

theorem namesGet_eq_none (m : List (String × PRef)) (k : String)
    (h : ∀ e ∈ m, e.1 ≠ k) : namesGet m k = none := by
  have hf : m.find? (fun e => e.1 = k) = none :=
    List.find?_eq_none.mpr (fun e he => by simpa using h e he)
  rw [namesGet, hf]
  rfl

theorem namesSet_eq_append (m : List (String × PRef)) (k : String) (v : PRef)
    (h : ∀ e ∈ m, e.1 ≠ k) : namesSet m k v = m ++ [(k, v)] := by
  have hf : m.find? (fun e => e.1 = k) = none :=
    List.find?_eq_none.mpr (fun e he => by simpa using h e he)
  rw [namesSet, hf]
  simp

theorem processPerson_not_seen (existing : List JSStr) (network : String)
    (st : PassState) (r : PRef)
    (hget : namesGet st.seenNodeNames (st.heap.getP r).name = none) :
    processPerson existing network st r =
      { st with
        seenNodeIDs := st.seenNodeIDs ++ [(st.heap.getP r).profile_url],
        seenNodeNames := namesSet st.seenNodeNames (st.heap.getP r).name r,
        newNodesData := st.newNodesData ++
          (if (st.heap.getP r).profile_url ∈ existing then []
           else [personNodeOf st.heap network r]) } := by
  unfold processPerson
  dsimp only
  rw [hget]
  by_cases h : (st.heap.getP r).profile_url ∈ existing
  · simp [h]
  · simp [h]

theorem processOrg_step (existing : List JSStr) (network : String)
    (st : PassState) (r : PRef) :
    processOrg existing network st r =
      { st with
        seenNodeIDs := st.seenNodeIDs ++ [(st.heap.getP r).profile_url],
        seenNodeNames := namesSet st.seenNodeNames (st.heap.getP r).name r,
        newNodesData := st.newNodesData ++
          (if (st.heap.getP r).profile_url ∈ existing then []
           else [orgNodeOf st.heap network r]) } := by
  unfold processOrg
  by_cases h : (st.heap.getP r).profile_url ∈ existing
  · simp [h]
  · simp [h]

theorem processTagNode_step (existing : List JSStr) (st : PassState) (n : NodeData) :
    processTagNode existing st n =
      { st with
        seenNodeIDs := st.seenNodeIDs ++ [n.id],
        newNodesData := st.newNodesData ++ (if n.id ∈ existing then [] else [n]) } := by
  unfold processTagNode
  by_cases h : n.id ∈ existing
  · simp [h]
  · simp [h]

theorem peopleFold_clean (heap : RecHeap) (existing : List JSStr) (network : String) :
    ∀ (ps : List PRef) (st : PassState), st.heap = heap →
    ((st.seenNodeNames.map Prod.fst)
      ++ ps.map (fun r => (heap.getP r).name)).Nodup →
    ps.foldl (processPerson existing network) st =
      { st with
        seenNodeIDs := st.seenNodeIDs ++ ps.map (fun r => (heap.getP r).profile_url),
        seenNodeNames := st.seenNodeNames ++ ps.map (fun r => ((heap.getP r).name, r)),
        newNodesData := st.newNodesData
          ++ (ps.filter (fun r => (heap.getP r).profile_url ∉ existing)).map
               (personNodeOf heap network) } := by
  intro ps
  induction ps with
  | nil => intro st _ _; simp
  | cons r ps ih =>
    intro st hheap hnd
    have hname : (heap.getP r).name ∉ st.seenNodeNames.map Prod.fst := by
      rw [List.nodup_append] at hnd
      intro hmem
      exact hnd.2.2 hmem (by simp)
    have hget : namesGet st.seenNodeNames (st.heap.getP r).name = none := by
      rw [hheap]
      exact namesGet_eq_none _ _ (fun e he heq =>
        hname (heq ▸ List.mem_map_of_mem Prod.fst he))
    have hset : namesSet st.seenNodeNames (st.heap.getP r).name r
        = st.seenNodeNames ++ [((heap.getP r).name, r)] := by
      rw [hheap]
      exact namesSet_eq_append _ _ _ (fun e he heq =>
        hname (heq ▸ List.mem_map_of_mem Prod.fst he))
    rw [List.foldl_cons, processPerson_not_seen existing network st r hget, hset]
    rw [ih _ (by simpa using hheap) ?_]
    · rw [hheap]
      by_cases hurl : (heap.getP r).profile_url ∈ existing
      · simp [List.filter_cons, hurl]
      · simp [List.filter_cons, hurl]
    · simpa [List.append_assoc] using hnd

theorem orgsFold_clean (heap : RecHeap) (existing : List JSStr) (network : String) :
    ∀ (os : List PRef) (st : PassState), st.heap = heap →
    ((st.seenNodeNames.map Prod.fst)
      ++ os.map (fun r => (heap.getP r).name)).Nodup →
    os.foldl (processOrg existing network) st =
      { st with
        seenNodeIDs := st.seenNodeIDs ++ os.map (fun r => (heap.getP r).profile_url),
        seenNodeNames := st.seenNodeNames ++ os.map (fun r => ((heap.getP r).name, r)),
        newNodesData := st.newNodesData
          ++ (os.filter (fun r => (heap.getP r).profile_url ∉ existing)).map
               (orgNodeOf heap network) } := by
  intro os
  induction os with
  | nil => intro st _ _; simp
  | cons r os ih =>
    intro st hheap hnd
    have hname : (heap.getP r).name ∉ st.seenNodeNames.map Prod.fst := by
      rw [List.nodup_append] at hnd
      intro hmem
      exact hnd.2.2 hmem (by simp)
    have hset : namesSet st.seenNodeNames (st.heap.getP r).name r
        = st.seenNodeNames ++ [((heap.getP r).name, r)] := by
      rw [hheap]
      exact namesSet_eq_append _ _ _ (fun e he heq =>
        hname (heq ▸ List.mem_map_of_mem Prod.fst he))
    rw [List.foldl_cons, processOrg_step existing network st r, hset]
    rw [ih _ (by simpa using hheap) ?_]
    · rw [hheap]
      by_cases hurl : (heap.getP r).profile_url ∈ existing
      · simp [List.filter_cons, hurl]
      · simp [List.filter_cons, hurl]
    · simpa [List.append_assoc] using hnd

theorem tagNodesFold (existing : List JSStr) :
    ∀ (ns : List NodeData) (st : PassState),
    ns.foldl (processTagNode existing) st =
      { st with
        seenNodeIDs := st.seenNodeIDs ++ ns.map (fun n => n.id),
        newNodesData := st.newNodesData
          ++ ns.filter (fun n => n.id ∉ existing) } := by
  intro ns
  induction ns with
  | nil => intro st; simp
  | cons n ns ih =>
    intro st
    rw [List.foldl_cons, processTagNode_step, ih]
    by_cases h : n.id ∈ existing
    · simp [List.filter_cons, h]
    · simp [List.filter_cons, h]

theorem getLinkKey_str (u v : String) (ty : LinkTy) :
    getLinkKey ⟨.str u, .str v, ty⟩ = .ok (mkLinkKey u ty v) := rfl

theorem processTagLink_visible (existing : List JSStr) (existingLinks : List String)
    (st : PassState) (u v : String) (ty : LinkTy)
    (hus : some u ∈ st.seenNodeIDs) (hvs : some v ∈ st.seenNodeIDs) :
    processTagLink existing existingLinks st ⟨.str u, .str v, ty⟩
      = .ok { st with
          seenLinkIDs := st.seenLinkIDs ++ [mkLinkKey u ty v],
          newLinksData := st.newLinksData ++
            (if mkLinkKey u ty v ∈ existingLinks then []
             else [⟨.str u, .str v, ty⟩]) } := by
  unfold processTagLink
  dsimp only
  have hsv : endMemIds (LinkEnd.str u) st.seenNodeIDs = true := by
    simp [endMemIds, hus]
  have htv : endMemIds (LinkEnd.str v) st.seenNodeIDs = true := by
    simp [endMemIds, hvs]
  rw [hsv, htv, Bool.true_or, Bool.true_or, Bool.true_and, if_pos rfl]
  rw [getLinkKey_str]
  simp only [Bind.bind, Except.bind]
  by_cases hk : mkLinkKey u ty v ∈ existingLinks
  · rw [if_pos hk, if_pos hk, List.append_nil]
    rfl
  · rw [if_neg hk, if_neg hk]
    rfl

theorem processRelLink_step (existingLinks : List String) (st : PassState)
    (u v : String) (ty : LinkTy) :
    processRelLink existingLinks st ⟨.str u, .str v, ty⟩
      = .ok { st with
          seenLinkIDs := st.seenLinkIDs ++ [mkLinkKey u ty v],
          newLinksData := st.newLinksData ++
            (if mkLinkKey u ty v ∈ existingLinks then []
             else [⟨.str u, .str v, ty⟩]) } := by
  unfold processRelLink
  rw [getLinkKey_str]
  simp only [Bind.bind, Except.bind]
  by_cases hk : mkLinkKey u ty v ∈ existingLinks
  · rw [if_pos hk, if_pos hk, List.append_nil]
    rfl
  · rw [if_neg hk, if_neg hk]
    rfl

theorem processTagLink_inv (existing : List JSStr) (existingLinks : List String) :
    ∀ (ls : List LinkData) (st : PassState),
    (∀ l ∈ ls, ∃ u v ty, l = ⟨.str u, .str v, ty⟩ ∧ dashFree u ∧ dashFree v
      ∧ some u ∈ st.seenNodeIDs ∧ some v ∈ st.seenNodeIDs) →
    ∃ st2, ls.foldlM (processTagLink existing existingLinks) st = .ok st2
      ∧ st2.heap = st.heap ∧ st2.seenNodeIDs = st.seenNodeIDs
      ∧ st2.seenNodeNames = st.seenNodeNames ∧ st2.newNodesData = st.newNodesData
      ∧ (∀ k ∈ st2.seenLinkIDs, k ∈ st.seenLinkIDs
          ∨ ∃ u ty v, k = mkLinkKey u ty v ∧ dashFree u ∧ dashFree v
              ∧ some u ∈ st.seenNodeIDs ∧ some v ∈ st.seenNodeIDs)
      ∧ (∀ l ∈ st2.newLinksData, l ∈ st.newLinksData
          ∨ ∃ u v ty, l = ⟨.str u, .str v, ty⟩
              ∧ some u ∈ st.seenNodeIDs ∧ some v ∈ st.seenNodeIDs) := by
  intro ls
  induction ls with
  | nil =>
    intro st _
    exact ⟨st, rfl, rfl, rfl, rfl, rfl, fun k hk => Or.inl hk, fun l hl => Or.inl hl⟩
  | cons l ls ih =>
    intro st hls
    obtain ⟨u, v, ty, rfl, hu, hv, hus, hvs⟩ := hls l (by simp)
    obtain ⟨st2, hrun, hh, hs, hn, hnn, hk, hl⟩ := ih
      { st with
        seenLinkIDs := st.seenLinkIDs ++ [mkLinkKey u ty v],
        newLinksData := st.newLinksData ++
          (if mkLinkKey u ty v ∈ existingLinks then []
           else [⟨.str u, .str v, ty⟩]) }
      (fun l2 hl2 => hls l2 (by simp [hl2]))
    refine ⟨st2, ?_, hh, hs, hn, hnn, ?_, ?_⟩
    · rw [List.foldlM_cons, processTagLink_visible existing existingLinks st u v ty hus hvs]
      simp only [Bind.bind, Except.bind]
      exact hrun
    · intro k hk2
      rcases hk k hk2 with hk1 | ⟨u2, ty2, v2, hkey, hu2, hv2, hus2, hvs2⟩
      · rcases List.mem_append.mp hk1 with h2 | h2
        · exact Or.inl h2
        · rw [List.mem_singleton] at h2
          exact Or.inr ⟨u, ty, v, h2, hu, hv, hus, hvs⟩
      · exact Or.inr ⟨u2, ty2, v2, hkey, hu2, hv2, hus2, hvs2⟩
    · intro l2 hl2
      rcases hl l2 hl2 with hl1 | ⟨u2, v2, ty2, hkey, hus2, hvs2⟩
      · rcases List.mem_append.mp hl1 with h2 | h2
        · exact Or.inl h2
        · by_cases hmem : mkLinkKey u ty v ∈ existingLinks
          · rw [if_pos hmem] at h2
            simp at h2
          · rw [if_neg hmem, List.mem_singleton] at h2
            exact Or.inr ⟨u, v, ty, h2, hus, hvs⟩
      · exact Or.inr ⟨u2, v2, ty2, hkey, hus2, hvs2⟩

theorem processRelLink_inv (existingLinks : List String) :
    ∀ (ls : List LinkData) (st : PassState),
    (∀ l ∈ ls, ∃ u v ty, l = ⟨.str u, .str v, ty⟩ ∧ dashFree u ∧ dashFree v
      ∧ some u ∈ st.seenNodeIDs ∧ some v ∈ st.seenNodeIDs) →
    ∃ st2, ls.foldlM (processRelLink existingLinks) st = .ok st2
      ∧ st2.heap = st.heap ∧ st2.seenNodeIDs = st.seenNodeIDs
      ∧ st2.seenNodeNames = st.seenNodeNames ∧ st2.newNodesData = st.newNodesData
      ∧ (∀ k ∈ st2.seenLinkIDs, k ∈ st.seenLinkIDs
          ∨ ∃ u ty v, k = mkLinkKey u ty v ∧ dashFree u ∧ dashFree v
              ∧ some u ∈ st.seenNodeIDs ∧ some v ∈ st.seenNodeIDs)
      ∧ (∀ l ∈ st2.newLinksData, l ∈ st.newLinksData
          ∨ ∃ u v ty, l = ⟨.str u, .str v, ty⟩
              ∧ some u ∈ st.seenNodeIDs ∧ some v ∈ st.seenNodeIDs) := by
  intro ls
  induction ls with
  | nil =>
    intro st _
    exact ⟨st, rfl, rfl, rfl, rfl, rfl, fun k hk => Or.inl hk, fun l hl => Or.inl hl⟩
  | cons l ls ih =>
    intro st hls
    obtain ⟨u, v, ty, rfl, hu, hv, hus, hvs⟩ := hls l (by simp)
    obtain ⟨st2, hrun, hh, hs, hn, hnn, hk, hl⟩ := ih
      { st with
        seenLinkIDs := st.seenLinkIDs ++ [mkLinkKey u ty v],
        newLinksData := st.newLinksData ++
          (if mkLinkKey u ty v ∈ existingLinks then []
           else [⟨.str u, .str v, ty⟩]) }
      (fun l2 hl2 => hls l2 (by simp [hl2]))
    refine ⟨st2, ?_, hh, hs, hn, hnn, ?_, ?_⟩
    · rw [List.foldlM_cons, processRelLink_step existingLinks st u v ty]
      simp only [Bind.bind, Except.bind]
      exact hrun
    · intro k hk2
      rcases hk k hk2 with hk1 | ⟨u2, ty2, v2, hkey, hu2, hv2, hus2, hvs2⟩
      · rcases List.mem_append.mp hk1 with h2 | h2
        · exact Or.inl h2
        · rw [List.mem_singleton] at h2
          exact Or.inr ⟨u, ty, v, h2, hu, hv, hus, hvs⟩
      · exact Or.inr ⟨u2, ty2, v2, hkey, hu2, hv2, hus2, hvs2⟩
    · intro l2 hl2
      rcases hl l2 hl2 with hl1 | ⟨u2, v2, ty2, hkey, hus2, hvs2⟩
      · rcases List.mem_append.mp hl1 with h2 | h2
        · exact Or.inl h2
        · by_cases hmem : mkLinkKey u ty v ∈ existingLinks
          · rw [if_pos hmem] at h2
            simp at h2
          · rw [if_neg hmem, List.mem_singleton] at h2
            exact Or.inr ⟨u, v, ty, h2, hus, hvs⟩
      · exact Or.inr ⟨u2, v2, ty2, hkey, hus2, hvs2⟩

theorem tagLinksOf_mem (h : RecHeap) (rs : List PRef) (l : LinkData)
    (hl : l ∈ tagLinksOf h rs) :
    ∃ r ∈ rs, ∃ t ∈ (h.getP r).tags.getD [],
      l = ⟨endOfId (h.getP r).profile_url, .str ("tag:" ++ t), .tag⟩ := by
  rw [tagLinksOf, List.mem_flatMap] at hl
  obtain ⟨r, hr, hin⟩ := hl
  rw [List.mem_map] at hin
  obtain ⟨t, ht, heq⟩ := hin
  exact ⟨r, hr, t, ht, heq.symm⟩

theorem knownTagsOf_mem (h : RecHeap) (people orgs : List PRef) (t : String) :
    t ∈ knownTagsOf h people orgs
      ↔ ∃ r ∈ people ++ orgs, t ∈ (h.getP r).tags.getD [] := by
  rw [knownTagsOf, jsSetDedup_mem, List.mem_append]
  simp only [tagsOfRecs, List.mem_flatMap]
  constructor
  · rintro (⟨r, hr, ht⟩ | ⟨r, hr, ht⟩)
    · exact ⟨r, List.mem_append.mpr (Or.inl hr), ht⟩
    · exact ⟨r, List.mem_append.mpr (Or.inr hr), ht⟩
  · rintro ⟨r, hr, ht⟩
    rcases List.mem_append.mp hr with h2 | h2
    · exact Or.inl ⟨r, h2, ht⟩
    · exact Or.inr ⟨r, h2, ht⟩

theorem urlMapGet_aux (entries : List (JSStr × PRef)) (k : String) (v : PRef) :
    ∀ acc, entries.foldl (fun acc e => if e.1 = some k then some e.2 else acc) acc
        = some v →
    (∃ e ∈ entries, e.1 = some k ∧ e.2 = v) ∨ acc = some v := by
  induction entries with
  | nil => exact fun acc h => Or.inr h
  | cons e es ih =>
    intro acc h
    rw [List.foldl_cons] at h
    rcases ih _ h with ⟨e2, he2, hk2, hv2⟩ | hacc
    · exact Or.inl ⟨e2, by simp [he2], hk2, hv2⟩
    · by_cases hek : e.1 = some k
      · rw [if_pos hek] at hacc
        exact Or.inl ⟨e, by simp, hek, Option.some.inj hacc⟩
      · rw [if_neg hek] at hacc
        exact Or.inr hacc

theorem urlMapGet_mem (entries : List (JSStr × PRef)) (k : String) (v : PRef)
    (h : urlMapGet entries k = some v) :
    ∃ e ∈ entries, e.1 = some k ∧ e.2 = v := by
  rcases urlMapGet_aux entries k v none h with h2 | h2
  · exact h2
  · cases h2

theorem urlMapGet_ref {h : RecHeap} {rs : List PRef} {k : String} {v : PRef}
    (hv : urlMapGet (rs.map (fun r => ((h.getP r).profile_url, r))) k = some v) :
    v ∈ rs := by
  obtain ⟨e, he, _, hev⟩ := urlMapGet_mem _ _ _ hv
  rw [List.mem_map] at he
  obtain ⟨r0, hr0, her⟩ := he
  rw [← hev, ← her]
  exact hr0

theorem getLinksFromRelationships_mem (h : RecHeap) (people orgs : List PRef)
    (l : LinkData) (hl : l ∈ getLinksFromRelationships h people orgs) :
    ∃ a b, a ∈ people ++ orgs ∧ b ∈ people ++ orgs
      ∧ l.source = endOfId (h.getP a).profile_url
      ∧ l.target = endOfId (h.getP b).profile_url := by
  simp only [getLinksFromRelationships] at hl
  rcases List.mem_append.mp hl with hp | ho
  · rw [List.mem_flatMap] at hp
    obtain ⟨pr, hpr, hin⟩ := hp
    rw [List.mem_flatMap] at hin
    obtain ⟨rel, _, hbr⟩ := hin
    split at hbr
    · split at hbr
      next org heq =>
        rw [List.mem_singleton] at hbr
        subst hbr
        exact ⟨pr, org, List.mem_append.mpr (Or.inl hpr),
          List.mem_append.mpr (Or.inr (urlMapGet_ref heq)), rfl, rfl⟩
      next heq => simp at hbr
    · split at hbr
      · split at hbr
        next q heq =>
          rw [List.mem_singleton] at hbr
          subst hbr
          exact ⟨pr, q, List.mem_append.mpr (Or.inl hpr),
            List.mem_append.mpr (Or.inl (urlMapGet_ref heq)), rfl, rfl⟩
        next heq => simp at hbr
      · split at hbr
        · split at hbr
          next org heq =>
            rw [List.mem_singleton] at hbr
            subst hbr
            exact ⟨pr, org, List.mem_append.mpr (Or.inl hpr),
              List.mem_append.mpr (Or.inr (urlMapGet_ref heq)), rfl, rfl⟩
          next heq => simp at hbr
        · simp at hbr
  · rw [List.mem_flatMap] at ho
    obtain ⟨orgr, horgr, hin⟩ := ho
    rw [List.mem_flatMap] at hin
    obtain ⟨rel, _, hbr⟩ := hin
    split at hbr
    · split at hbr
      next o2 heq =>
        rw [List.mem_singleton] at hbr
        subst hbr
        exact ⟨orgr, o2, List.mem_append.mpr (Or.inr horgr),
          List.mem_append.mpr (Or.inr (urlMapGet_ref heq)), rfl, rfl⟩
      next heq => simp at hbr
    · simp at hbr

theorem tagNodeIds_map (net : String) (tags : List String) :
    (tags.map (tagNodeOf net)).map (fun n => n.id)
      = tags.map (fun t => some ("tag:" ++ t)) := by
  rw [List.map_map]
  rfl

theorem tagNodes_filter (net : String) (existing : List JSStr) (tags : List String) :
    (tags.map (tagNodeOf net)).filter (fun n => n.id ∉ existing)
      = (tags.filter (fun t => some ("tag:" ++ t) ∉ existing)).map (tagNodeOf net) := by
  rw [List.filter_map]
  rfl

theorem networkPhase_clean (heap : RecHeap) (existing : List JSStr)
    (existingLinks : List String) (showTags : Bool) (entry : String × NetworkRaw)
    (st : PassState)
    (hheap : st.heap = heap)
    (hactive : entry.2.active = true)
    (hnd : ((st.seenNodeNames.map Prod.fst)
      ++ (entry.2.people ++ entry.2.orgs).map (fun r => (heap.getP r).name)).Nodup)
    (hurls : ∀ r ∈ entry.2.people ++ entry.2.orgs,
      ∃ u, (heap.getP r).profile_url = some u ∧ dashFree u)
    (htags : ∀ r ∈ entry.2.people ++ entry.2.orgs,
      ∀ t ∈ (heap.getP r).tags.getD [], dashFree t) :
    ∃ st2, networkPhase existing existingLinks .all showTags st entry = .ok st2
      ∧ st2.heap = heap
      ∧ st2.seenNodeIDs = st.seenNodeIDs ++ networkSeenIds heap showTags entry.2
      ∧ st2.seenNodeNames.map Prod.fst = st.seenNodeNames.map Prod.fst
          ++ (entry.2.people ++ entry.2.orgs).map (fun r => (heap.getP r).name)
      ∧ st2.newNodesData = st.newNodesData
          ++ networkNewNodes heap existing showTags entry.1 entry.2
      ∧ (∀ k ∈ st2.seenLinkIDs, k ∈ st.seenLinkIDs
          ∨ ∃ u ty v, k = mkLinkKey u ty v ∧ dashFree u ∧ dashFree v
              ∧ some u ∈ st2.seenNodeIDs ∧ some v ∈ st2.seenNodeIDs)
      ∧ (∀ l ∈ st2.newLinksData, l ∈ st.newLinksData
          ∨ ∃ u v ty, l = ⟨.str u, .str v, ty⟩
              ∧ some u ∈ st2.seenNodeIDs ∧ some v ∈ st2.seenNodeIDs) := by
  have hndfull : ((st.seenNodeNames.map Prod.fst)
      ++ (entry.2.people.map (fun r => (heap.getP r).name)
          ++ entry.2.orgs.map (fun r => (heap.getP r).name))).Nodup := by
    rw [← List.map_append]
    exact hnd
  have hndp : ((st.seenNodeNames.map Prod.fst)
      ++ entry.2.people.map (fun r => (heap.getP r).name)).Nodup := by
    rw [← List.append_assoc] at hndfull
    exact hndfull.of_append_left
  have h1 := peopleFold_clean heap existing entry.1 entry.2.people st hheap hndp
  set st1v : PassState :=
    { st with
      seenNodeIDs := st.seenNodeIDs
        ++ entry.2.people.map (fun r => (heap.getP r).profile_url),
      seenNodeNames := st.seenNodeNames
        ++ entry.2.people.map (fun r => ((heap.getP r).name, r)),
      newNodesData := st.newNodesData
        ++ (entry.2.people.filter
            (fun r => (heap.getP r).profile_url ∉ existing)).map
            (personNodeOf heap entry.1) } with hst1v
  have hheap1 : st1v.heap = heap := hheap
  have hkeys1 : st1v.seenNodeNames.map Prod.fst
      = st.seenNodeNames.map Prod.fst
        ++ entry.2.people.map (fun r => (heap.getP r).name) := by
    rw [hst1v]
    simp
  have hndo : (st1v.seenNodeNames.map Prod.fst
      ++ entry.2.orgs.map (fun r => (heap.getP r).name)).Nodup := by
    rw [hkeys1, List.append_assoc]
    rw [← List.append_assoc] at hndfull
    simpa [List.append_assoc] using hndfull
  have h2 := orgsFold_clean heap existing entry.1 entry.2.orgs st1v hheap1 hndo
  set st2v : PassState :=
    { st1v with
      seenNodeIDs := st1v.seenNodeIDs
        ++ entry.2.orgs.map (fun r => (heap.getP r).profile_url),
      seenNodeNames := st1v.seenNodeNames
        ++ entry.2.orgs.map (fun r => ((heap.getP r).name, r)),
      newNodesData := st1v.newNodesData
        ++ (entry.2.orgs.filter
            (fun r => (heap.getP r).profile_url ∉ existing)).map
            (orgNodeOf heap entry.1) } with hst2v
  have hheap2 : st2v.heap = heap := hheap
  have hseen2 : st2v.seenNodeIDs = st.seenNodeIDs
      ++ (entry.2.people ++ entry.2.orgs).map (fun r => (heap.getP r).profile_url) := by
    rw [hst2v, hst1v]
    simp [List.append_assoc]
  have hkeys2 : st2v.seenNodeNames.map Prod.fst
      = st.seenNodeNames.map Prod.fst
        ++ (entry.2.people ++ entry.2.orgs).map (fun r => (heap.getP r).name) := by
    rw [hst2v, hst1v]
    simp only [List.map_append, List.map_map, List.append_assoc]
    rfl
  have hnew2 : st2v.newNodesData = st.newNodesData
      ++ ((entry.2.people.filter
            (fun r => (heap.getP r).profile_url ∉ existing)).map
            (personNodeOf heap entry.1)
        ++ (entry.2.orgs.filter
            (fun r => (heap.getP r).profile_url ∉ existing)).map
            (orgNodeOf heap entry.1)) := by
    rw [hst2v, hst1v]
    simp [List.append_assoc]
  have hlink2 : st2v.seenLinkIDs = st.seenLinkIDs := by
    rw [hst2v, hst1v]
  have hnewlink2 : st2v.newLinksData = st.newLinksData := by
    rw [hst2v, hst1v]
  have hif1 : (if (NodeFilter.all = NodeFilter.orgs) then ([] : List PRef)
      else entry.2.people) = entry.2.people := if_neg (by decide)
  have hif2 : (if (NodeFilter.all = NodeFilter.people) then ([] : List PRef)
      else entry.2.orgs) = entry.2.orgs := if_neg (by decide)
  cases showTags with
  | false =>
    refine ⟨st2v, ?_, hheap2, ?_, hkeys2, ?_, ?_, ?_⟩
    · simp only [networkPhase, hactive, Bool.not_true, Bool.false_eq_true, if_false,
        hif1, hif2]
      rw [h1, h2]
      rfl
    · rw [hseen2]
      simp [networkSeenIds]
    · rw [hnew2]
      simp [networkNewNodes]
    · intro k hk
      rw [hlink2] at hk
      exact Or.inl hk
    · intro l hl
      rw [hnewlink2] at hl
      exact Or.inl hl
  | true =>
    have h3 := tagNodesFold existing
      ((knownTagsOf heap entry.2.people entry.2.orgs).map (tagNodeOf entry.1)) st2v
    rw [tagNodeIds_map, tagNodes_filter] at h3
    set st3v : PassState :=
      { st2v with
        seenNodeIDs := st2v.seenNodeIDs
          ++ (knownTagsOf heap entry.2.people entry.2.orgs).map
              (fun t => some ("tag:" ++ t)),
        newNodesData := st2v.newNodesData
          ++ ((knownTagsOf heap entry.2.people entry.2.orgs).filter
              (fun t => some ("tag:" ++ t) ∉ existing)).map (tagNodeOf entry.1) }
      with hst3v
    have hseen3 : st3v.seenNodeIDs = st.seenNodeIDs
        ++ ((entry.2.people ++ entry.2.orgs).map (fun r => (heap.getP r).profile_url)
          ++ (knownTagsOf heap entry.2.people entry.2.orgs).map
              (fun t => some ("tag:" ++ t))) := by
      rw [hst3v]
      simp [hseen2, List.append_assoc]
    have hnames3 : st3v.seenNodeNames = st2v.seenNodeNames := by
      rw [hst3v]
    have hlink3 : st3v.seenLinkIDs = st.seenLinkIDs := by
      rw [hst3v]
    have hnewlink3 : st3v.newLinksData = st.newLinksData := by
      rw [hst3v]
    have hnew3 : st3v.newNodesData = st.newNodesData
        ++ ((entry.2.people.filter
              (fun r => (heap.getP r).profile_url ∉ existing)).map
              (personNodeOf heap entry.1)
          ++ (entry.2.orgs.filter
              (fun r => (heap.getP r).profile_url ∉ existing)).map
              (orgNodeOf heap entry.1)
          ++ ((knownTagsOf heap entry.2.people entry.2.orgs).filter
              (fun t => some ("tag:" ++ t) ∉ existing)).map (tagNodeOf entry.1)) := by
      rw [hst3v]
      simp [hnew2, List.append_assoc]
    have hprem : ∀ l ∈ tagLinksOf heap entry.2.people
        ++ tagLinksOf heap entry.2.orgs,
        ∃ u v ty, l = ⟨.str u, .str v, ty⟩ ∧ dashFree u ∧ dashFree v
          ∧ some u ∈ st3v.seenNodeIDs ∧ some v ∈ st3v.seenNodeIDs := by
      intro l hl
      have hl2 : ∃ r ∈ entry.2.people ++ entry.2.orgs,
          ∃ t ∈ (heap.getP r).tags.getD [],
          l = ⟨endOfId (heap.getP r).profile_url, .str ("tag:" ++ t), .tag⟩ := by
        rcases List.mem_append.mp hl with h4 | h4
        · obtain ⟨r, hr, t, ht, hlf⟩ := tagLinksOf_mem heap _ l h4
          exact ⟨r, List.mem_append.mpr (Or.inl hr), t, ht, hlf⟩
        · obtain ⟨r, hr, t, ht, hlf⟩ := tagLinksOf_mem heap _ l h4
          exact ⟨r, List.mem_append.mpr (Or.inr hr), t, ht, hlf⟩
      obtain ⟨r, hr, t, ht, rfl⟩ := hl2
      obtain ⟨u, hu, hdu⟩ := hurls r hr
      have humem : some u ∈ st3v.seenNodeIDs := by
        have hmem : (heap.getP r).profile_url
            ∈ (entry.2.people ++ entry.2.orgs).map
                (fun r => (heap.getP r).profile_url) :=
          List.mem_map_of_mem _ hr
        rw [hu] at hmem
        rw [hseen3]
        exact List.mem_append.mpr (Or.inr (List.mem_append.mpr (Or.inl hmem)))
      have hvmem : some ("tag:" ++ t) ∈ st3v.seenNodeIDs := by
        have hkt : t ∈ knownTagsOf heap entry.2.people entry.2.orgs :=
          (knownTagsOf_mem heap _ _ t).mpr ⟨r, hr, ht⟩
        rw [hseen3]
        exact List.mem_append.mpr (Or.inr (List.mem_append.mpr
          (Or.inr (List.mem_map_of_mem _ hkt))))
      rw [hu]
      exact ⟨u, "tag:" ++ t, .tag, rfl,
        hdu, dashFree_append _ _ (dashFree_of_not_mem _ (by decide))
          (htags r hr t ht), humem, hvmem⟩
    obtain ⟨st4, hrun4, hh4, hs4, hname4, hnew4, hk4, hl4⟩ :=
      processTagLink_inv existing existingLinks
        (tagLinksOf heap entry.2.people ++ tagLinksOf heap entry.2.orgs) st3v hprem
    refine ⟨st4, ?_, ?_, ?_, ?_, ?_, ?_, ?_⟩
    · simp only [networkPhase, hactive, Bool.not_true, Bool.false_eq_true, if_false,
        hif1, hif2, if_true]
      rw [h1, h2]
      have hh2v : st2v.heap = heap := hheap
      rw [hh2v]
      simp only [getTagNodesAndLinks]
      rw [h3]
      exact hrun4
    · exact hh4.trans (hheap : st3v.heap = heap)
    · rw [hs4, hseen3]
      simp [networkSeenIds, List.append_assoc]
    · rw [hname4, hnames3, hkeys2]
    · rw [hnew4, hnew3]
      simp [networkNewNodes, List.append_assoc]
    · intro k hk
      rcases hk4 k hk with h5 | ⟨u, ty, v, hkey, hdu, hdv, hum, hvm⟩
      · rw [hlink3] at h5
        exact Or.inl h5
      · exact Or.inr ⟨u, ty, v, hkey, hdu, hdv, by rw [hs4]; exact hum,
          by rw [hs4]; exact hvm⟩
    · intro l hl
      rcases hl4 l hl with h5 | ⟨u, v, ty, hkey, hum, hvm⟩
      · rw [hnewlink3] at h5
        exact Or.inl h5
      · exact Or.inr ⟨u, v, ty, hkey, by rw [hs4]; exact hum,
          by rw [hs4]; exact hvm⟩

theorem rawDataFold_clean (heap : RecHeap) (existing : List JSStr)
    (existingLinks : List String) (showTags : Bool) :
    ∀ (rawData : List (String × NetworkRaw)) (st : PassState),
    st.heap = heap →
    ((st.seenNodeNames.map Prod.fst)
      ++ (activeRecs rawData).map (fun r => (heap.getP r).name)).Nodup →
    (∀ r ∈ activeRecs rawData,
      ∃ u, (heap.getP r).profile_url = some u ∧ dashFree u) →
    (∀ r ∈ activeRecs rawData, ∀ t ∈ (heap.getP r).tags.getD [], dashFree t) →
    ∃ st2, rawData.foldlM (networkPhase existing existingLinks .all showTags) st
        = .ok st2
      ∧ st2.heap = heap
      ∧ st2.seenNodeIDs = st.seenNodeIDs ++ dataNodeIds heap rawData showTags
      ∧ st2.seenNodeNames.map Prod.fst = st.seenNodeNames.map Prod.fst
          ++ (activeRecs rawData).map (fun r => (heap.getP r).name)
      ∧ st2.newNodesData = st.newNodesData
          ++ passNewNodes heap existing showTags rawData
      ∧ (∀ k ∈ st2.seenLinkIDs, k ∈ st.seenLinkIDs
          ∨ ∃ u ty v, k = mkLinkKey u ty v ∧ dashFree u ∧ dashFree v
              ∧ some u ∈ st2.seenNodeIDs ∧ some v ∈ st2.seenNodeIDs)
      ∧ (∀ l ∈ st2.newLinksData, l ∈ st.newLinksData
          ∨ ∃ u v ty, l = ⟨.str u, .str v, ty⟩
              ∧ some u ∈ st2.seenNodeIDs ∧ some v ∈ st2.seenNodeIDs) := by
  intro rawData
  induction rawData with
  | nil =>
    intro st hheap _ _ _
    exact ⟨st, rfl, hheap, by simp [dataNodeIds], by simp [activeRecs],
      by simp [passNewNodes], fun k hk => Or.inl hk, fun l hl => Or.inl hl⟩
  | cons e rest ih =>
    intro st hheap hnd hurls htags
    cases hac : e.2.active with
    | false =>
      have hrecs : activeRecs (e :: rest) = activeRecs rest := by
        simp [activeRecs, hac]
      have hdata : dataNodeIds heap (e :: rest) showTags
          = dataNodeIds heap rest showTags := by
        simp [dataNodeIds, hac]
      have hpass : passNewNodes heap existing showTags (e :: rest)
          = passNewNodes heap existing showTags rest := by
        simp [passNewNodes, hac]
      have hstep : networkPhase existing existingLinks .all showTags st e
          = .ok st := by
        simp only [networkPhase, hac, Bool.not_false, if_true]
        rfl
      rw [hrecs] at hnd hurls htags
      obtain ⟨st2, hrun, hh, hs, hnm, hnn, hk, hl⟩ := ih st hheap hnd hurls htags
      refine ⟨st2, ?_, hh, ?_, ?_, ?_, hk, hl⟩
      · rw [List.foldlM_cons, hstep]
        simp only [Bind.bind, Except.bind]
        exact hrun
      · rw [hs, hdata]
      · rw [hnm, hrecs]
      · rw [hnn, hpass]
    | true =>
      have hrecs : activeRecs (e :: rest)
          = (e.2.people ++ e.2.orgs) ++ activeRecs rest := by
        simp [activeRecs, hac]
      have hdata : dataNodeIds heap (e :: rest) showTags
          = networkSeenIds heap showTags e.2 ++ dataNodeIds heap rest showTags := by
        simp [dataNodeIds, hac]
      have hpass : passNewNodes heap existing showTags (e :: rest)
          = networkNewNodes heap existing showTags e.1 e.2
            ++ passNewNodes heap existing showTags rest := by
        simp [passNewNodes, hac]
      rw [hrecs] at hnd hurls htags
      have hnde : ((st.seenNodeNames.map Prod.fst)
          ++ (e.2.people ++ e.2.orgs).map (fun r => (heap.getP r).name)).Nodup := by
        rw [List.map_append, ← List.append_assoc] at hnd
        exact hnd.of_append_left
      obtain ⟨stm, hrunm, hhm, hsm, hnmm, hnnm, hkm, hlm⟩ :=
        networkPhase_clean heap existing existingLinks showTags e st hheap hac hnde
          (fun r hr => hurls r (List.mem_append.mpr (Or.inl hr)))
          (fun r hr => htags r (List.mem_append.mpr (Or.inl hr)))
      have hndrest : ((stm.seenNodeNames.map Prod.fst)
          ++ (activeRecs rest).map (fun r => (heap.getP r).name)).Nodup := by
        rw [hnmm, List.append_assoc]
        simpa [List.map_append, List.append_assoc] using hnd
      obtain ⟨st2, hrun, hh, hs, hnm, hnn, hk, hl⟩ := ih stm hhm hndrest
        (fun r hr => hurls r (List.mem_append.mpr (Or.inr hr)))
        (fun r hr => htags r (List.mem_append.mpr (Or.inr hr)))
      refine ⟨st2, ?_, hh, ?_, ?_, ?_, ?_, ?_⟩
      · rw [List.foldlM_cons, hrunm]
        simp only [Bind.bind, Except.bind]
        exact hrun
      · rw [hs, hsm, hdata, List.append_assoc]
      · rw [hnm, hnmm, hrecs]
        simp [List.append_assoc]
      · rw [hnn, hnnm, hpass, List.append_assoc]
      · intro k hk2
        rcases hk k hk2 with h5 | ⟨u, ty, v, hkey, hdu, hdv, hum, hvm⟩
        · rcases hkm k h5 with h6 | ⟨u, ty, v, hkey, hdu, hdv, hum, hvm⟩
          · exact Or.inl h6
          · refine Or.inr ⟨u, ty, v, hkey, hdu, hdv, ?_, ?_⟩
            · rw [hs]
              exact List.mem_append.mpr (Or.inl hum)
            · rw [hs]
              exact List.mem_append.mpr (Or.inl hvm)
        · exact Or.inr ⟨u, ty, v, hkey, hdu, hdv, hum, hvm⟩
      · intro l hl2
        rcases hl l hl2 with h5 | ⟨u, v, ty, hkey, hum, hvm⟩
        · rcases hlm l h5 with h6 | ⟨u, v, ty, hkey, hum, hvm⟩
          · exact Or.inl h6
          · refine Or.inr ⟨u, v, ty, hkey, ?_, ?_⟩
            · rw [hs]
              exact List.mem_append.mpr (Or.inl hum)
            · rw [hs]
              exact List.mem_append.mpr (Or.inl hvm)
        · exact Or.inr ⟨u, v, ty, hkey, hum, hvm⟩

theorem networkNewNodes_ids (h : RecHeap) (existing : List JSStr) (showTags : Bool)
    (net : String) (raw : NetworkRaw) :
    nodeIdsOf (networkNewNodes h existing showTags net raw)
      = (networkSeenIds h showTags raw).filter (fun id => id ∉ existing) := by
  cases showTags with
  | false =>
    rw [networkNewNodes, networkSeenIds]
    simp only [Bool.false_eq_true, if_false, List.append_nil]
    simp only [nodeIdsOf, List.map_append, List.filter_append, List.map_map,
      List.filter_map]
    rfl
  | true =>
    rw [networkNewNodes, networkSeenIds]
    simp only [if_true]
    simp only [nodeIdsOf, List.map_append, List.filter_append, List.map_map,
      List.filter_map]
    rfl

theorem passNewNodes_ids (heap : RecHeap) (existing : List JSStr) (showTags : Bool) :
    ∀ rawData, nodeIdsOf (passNewNodes heap existing showTags rawData)
      = (dataNodeIds heap rawData showTags).filter (fun id => id ∉ existing) := by
  intro rawData
  induction rawData with
  | nil => rfl
  | cons e rest ih =>
    have hL : passNewNodes heap existing showTags (e :: rest)
        = (if e.2.active then networkNewNodes heap existing showTags e.1 e.2 else [])
          ++ passNewNodes heap existing showTags rest := by
      rw [passNewNodes, passNewNodes, List.flatMap_cons]
    have hR : dataNodeIds heap (e :: rest) showTags
        = (if e.2.active then networkSeenIds heap showTags e.2 else [])
          ++ dataNodeIds heap rest showTags := by
      rw [dataNodeIds, dataNodeIds, List.flatMap_cons]
    rw [hL, hR, nodeIdsOf, List.map_append, List.filter_append]
    rw [nodeIdsOf] at ih
    cases e.2.active with
    | false =>
      rw [if_neg (by simp), if_neg (by simp)]
      simp only [List.map_nil, List.filter_nil, List.nil_append]
      exact ih
    | true =>
      rw [if_pos rfl, if_pos rfl, ih]
      have h2 := networkNewNodes_ids heap existing showTags e.1 e.2
      rw [nodeIdsOf] at h2
      rw [h2]

theorem passNewNodes_profile (heap : RecHeap) (existing : List JSStr)
    (showTags : Bool) (rawData : List (String × NetworkRaw)) (n : NodeData)
    (hn : n ∈ passNewNodes heap existing showTags rawData)
    (hk : n.kind = .person ∨ n.kind = .organization) :
    ∃ r, r ∈ activeRecs rawData ∧ n.payload = .profileRef r
      ∧ n.id = (heap.getP r).profile_url := by
  rw [passNewNodes, List.mem_flatMap] at hn
  obtain ⟨e, he, hin⟩ := hn
  split at hin
  next hac =>
    rw [networkNewNodes] at hin
    rcases List.mem_append.mp hin with h1 | h2
    · rcases List.mem_append.mp h1 with hp | ho
      · rw [List.mem_map] at hp
        obtain ⟨r, hr, hnr⟩ := hp
        refine ⟨r, ?_, ?_, ?_⟩
        · rw [activeRecs, List.mem_flatMap]
          exact ⟨e, he, by
            rw [if_pos hac]
            exact List.mem_append.mpr (Or.inl (List.mem_of_mem_filter hr))⟩
        · rw [← hnr]
          rfl
        · rw [← hnr]
          rfl
      · rw [List.mem_map] at ho
        obtain ⟨r, hr, hnr⟩ := ho
        refine ⟨r, ?_, ?_, ?_⟩
        · rw [activeRecs, List.mem_flatMap]
          exact ⟨e, he, by
            rw [if_pos hac]
            exact List.mem_append.mpr (Or.inr (List.mem_of_mem_filter hr))⟩
        · rw [← hnr]
          rfl
        · rw [← hnr]
          rfl
    · exfalso
      split at h2
      · rw [List.mem_map] at h2
        obtain ⟨t, _, hnt⟩ := h2
        rcases hk with hk | hk <;> rw [← hnt] at hk <;> simp [tagNodeOf] at hk
      · simp at h2
  next hac => simp at hin

theorem filterMap_kind_mem (nodes : List NodeData) (k : NodeKind) (a : PRef)
    (ha : a ∈ nodes.filterMap
      (fun n => if n.kind = k then n.payload.refOpt else none)) :
    ∃ n ∈ nodes, n.kind = k ∧ n.payload = .profileRef a := by
  rw [List.mem_filterMap] at ha
  obtain ⟨n, hn, heq⟩ := ha
  split at heq
  next hkind =>
    cases hpl : n.payload with
    | profileRef r =>
      rw [hpl] at heq
      simp [NodePayload.refOpt] at heq
      exact ⟨n, hn, hkind, by rw [hpl, heq]⟩
    | tagStr t =>
      rw [hpl] at heq
      simp [NodePayload.refOpt] at heq
  next => simp at heq

theorem jsIdEqEnd_str (id : JSStr) (v : String) :
    jsIdEqEnd id (.str v) = true ↔ id = some v := by
  cases id with
  | none => simp [jsIdEqEnd]
  | some s => simp [jsIdEqEnd]

theorem find?_id_of_mem (nodes : List NodeData) (u : String)
    (h : some u ∈ nodeIdsOf nodes) :
    ∃ n, nodes.find? (fun n => n.id = some u) = some n
      ∧ n ∈ nodes ∧ n.id = some u := by
  rw [nodeIdsOf, List.mem_map] at h
  obtain ⟨n0, hn0, hid⟩ := h
  have hsome : (nodes.find? (fun n => n.id = some u)).isSome := by
    rw [List.find?_isSome]
    exact ⟨n0, hn0, by simp [hid]⟩
  obtain ⟨n, hn⟩ := Option.isSome_iff_exists.mp hsome
  refine ⟨n, hn, List.mem_of_find?_eq_some hn, ?_⟩
  have h2 := List.find?_some hn
  simpa using h2

theorem find?_end_of_mem (nodes : List NodeData) (v : String)
    (h : some v ∈ nodeIdsOf nodes) :
    ∃ n, nodes.find? (fun n => jsIdEqEnd n.id (.str v)) = some n
      ∧ n ∈ nodes ∧ n.id = some v := by
  rw [nodeIdsOf, List.mem_map] at h
  obtain ⟨n0, hn0, hid⟩ := h
  have hsome : (nodes.find? (fun n => jsIdEqEnd n.id (.str v))).isSome := by
    rw [List.find?_isSome]
    exact ⟨n0, hn0, (jsIdEqEnd_str n0.id v).mpr hid⟩
  obtain ⟨n, hn⟩ := Option.isSome_iff_exists.mp hsome
  refine ⟨n, hn, List.mem_of_find?_eq_some hn, ?_⟩
  have h2 := List.find?_some hn
  rw [← jsIdEqEnd_str n.id v]
  exact h2

theorem resolveLink_node (nodes : List NodeData) (l : LinkData) (ns : NodeData)
    (hs : l.source = .node ns) : resolveLink nodes l = l := by
  unfold resolveLink
  rw [hs]

theorem resolveLink_str (nodes : List NodeData) (u v : String) (ty : LinkTy)
    (nu nv : NodeData)
    (hu : nodes.find? (fun n => n.id = some u) = some nu)
    (hv : nodes.find? (fun n => jsIdEqEnd n.id (.str v)) = some nv) :
    resolveLink nodes ⟨.str u, .str v, ty⟩ = ⟨.node nu, .node nv, ty⟩ := by
  unfold resolveLink
  dsimp only
  rw [hu, hv]
  rfl

theorem keptIds_eq (nodes : List NodeData) (D : List JSStr) :
    nodeIdsOf (nodes.filter (fun n => n.id ∈ D))
      = (nodeIdsOf nodes).filter (fun id => id ∈ D) := by
  rw [nodeIdsOf, nodeIdsOf, List.filter_map]
  rfl

/-- C2 (amended): over clean data — pairwise-distinct names among the
active records (so no duplicate-name merge fires), every active record
carrying a dash-free profile url, dash-free tags, no repeated id in the
supplied data, and a well-formed previous pass (duplicate-free dash-free
node ids, person and organization nodes consistent with their records, and
fully resolved links) — a reconciliation pass succeeds and afterwards the
live node ids are exactly the ids occurring in the supplied data (person
and organization profile urls plus tag ids of the active networks), the
live node count equals the count of distinct supplied ids, every
previously-live id absent from the supplied data is gone, and every
surviving or new link has both endpoints resolved to live nodes, so no
link incident to a removed node survives. -/
theorem C2_amended (heap : RecHeap) (prev : GraphState)
    (rawData : List (String × NetworkRaw)) (showRelationships showTags : Bool)
    (hnames : ((activeRecs rawData).map (fun r => (heap.getP r).name)).Nodup)
    (hurls : ∀ r ∈ activeRecs rawData,
      ∃ u, (heap.getP r).profile_url = some u ∧ dashFree u)
    (htags : ∀ r ∈ activeRecs rawData,
      ∀ t ∈ (heap.getP r).tags.getD [], dashFree t)
    (hids : (dataNodeIds heap rawData showTags).Nodup)
    (hprevIds : ∀ n ∈ prev.nodes, ∃ u, n.id = some u ∧ dashFree u)
    (hprevNd : (prev.nodes.map (fun n => n.id)).Nodup)
    (hprevPayload : ∀ n ∈ prev.nodes,
      (n.kind = .person ∨ n.kind = .organization) →
      ∃ r, n.payload = .profileRef r ∧ (heap.getP r).profile_url = n.id)
    (hprevLinks : ∀ l ∈ prev.links, ∃ ns nt, l.source = .node ns
      ∧ l.target = .node nt ∧ ns ∈ prev.nodes ∧ nt ∈ prev.nodes) :
    ∃ h2 g2, setDataReconcile heap prev rawData .all showRelationships showTags
        = .ok (h2, g2)
      ∧ (∀ id, id ∈ nodeIdsOf g2.nodes ↔ id ∈ dataNodeIds heap rawData showTags)
      ∧ g2.nodes.length = (jsSetDedup (dataNodeIds heap rawData showTags)).length
      ∧ (∀ n ∈ prev.nodes, n.id ∉ dataNodeIds heap rawData showTags →
          n.id ∉ nodeIdsOf g2.nodes)
      ∧ (∀ l ∈ g2.links, ∃ ns nt, l.source = .node ns ∧ l.target = .node nt
          ∧ ns ∈ g2.nodes ∧ nt ∈ g2.nodes) := by
  have hkeys : ∀ l ∈ prev.links, getLinkKey l = .ok (keyOfResolved l) := by
    intro l hl
    obtain ⟨ns, nt, hsrc, htgt, _, _⟩ := hprevLinks l hl
    cases l with
    | mk s t ty =>
      dsimp only at hsrc htgt
      subst hsrc
      subst htgt
      rfl
  have hmapM : prev.links.mapM getLinkKey = .ok (prev.links.map keyOfResolved) :=
    listMapM_ok getLinkKey keyOfResolved prev.links hkeys
  obtain ⟨st1, hfold, hheap1, hseen1, hnames1, hnew1, hkinv1, hlinv1⟩ :=
    rawDataFold_clean heap (prev.nodes.map (fun n => n.id))
      (prev.links.map keyOfResolved) showTags rawData
      ⟨heap, [], [], [], [], []⟩ rfl (by simpa using hnames) hurls htags
  rw [List.nil_append] at hseen1 hnew1
  have hkinv : ∀ k ∈ st1.seenLinkIDs, ∃ u ty v, k = mkLinkKey u ty v
      ∧ dashFree u ∧ dashFree v ∧ some u ∈ dataNodeIds heap rawData showTags
      ∧ some v ∈ dataNodeIds heap rawData showTags := by
    intro k hk
    rcases hkinv1 k hk with h | ⟨u, ty, v, hkey, hdu, hdv, hum, hvm⟩
    · simp at h
    · exact ⟨u, ty, v, hkey, hdu, hdv, by rwa [hseen1] at hum,
        by rwa [hseen1] at hvm⟩
  have hlinv : ∀ l ∈ st1.newLinksData, ∃ u v ty, l = ⟨.str u, .str v, ty⟩
      ∧ some u ∈ dataNodeIds heap rawData showTags
      ∧ some v ∈ dataNodeIds heap rawData showTags := by
    intro l hl
    rcases hlinv1 l hl with h | ⟨u, v, ty, hkey, hum, hvm⟩
    · simp at h
    · exact ⟨u, v, ty, hkey, by rwa [hseen1] at hum, by rwa [hseen1] at hvm⟩
  have hkeptIds : nodeIdsOf (prev.nodes.filter (fun n => n.id ∈ st1.seenNodeIDs))
      = (prev.nodes.map (fun n => n.id)).filter
          (fun id => id ∈ dataNodeIds heap rawData showTags) := by
    rw [hseen1, keptIds_eq]
    rfl
  have hnewIds : nodeIdsOf st1.newNodesData
      = (dataNodeIds heap rawData showTags).filter
          (fun id => id ∉ prev.nodes.map (fun n => n.id)) := by
    rw [hnew1, passNewNodes_ids]
  have happ : nodeIdsOf (prev.nodes.filter (fun n => n.id ∈ st1.seenNodeIDs)
        ++ st1.newNodesData)
      = nodeIdsOf (prev.nodes.filter (fun n => n.id ∈ st1.seenNodeIDs))
        ++ nodeIdsOf st1.newNodesData := by
    rw [nodeIdsOf, nodeIdsOf, nodeIdsOf, List.map_append]
  have hc1 : ∀ id, id ∈ nodeIdsOf (prev.nodes.filter
        (fun n => n.id ∈ st1.seenNodeIDs) ++ st1.newNodesData)
      ↔ id ∈ dataNodeIds heap rawData showTags := by
    intro id
    rw [happ, List.mem_append, hkeptIds, hnewIds]
    constructor
    · rintro (h | h)
      · exact of_decide_eq_true (List.mem_filter.mp h).2
      · exact (List.mem_filter.mp h).1
    · intro hid
      by_cases hE2 : id ∈ prev.nodes.map (fun n => n.id)
      · exact Or.inl (List.mem_filter.mpr ⟨hE2, by simpa using hid⟩)
      · exact Or.inr (List.mem_filter.mpr ⟨hid, by simpa using hE2⟩)
  have hlen : (prev.nodes.filter (fun n => n.id ∈ st1.seenNodeIDs)
        ++ st1.newNodesData).length
      = (dataNodeIds heap rawData showTags).length := by
    rw [List.length_append]
    have h1 : (prev.nodes.filter (fun n => n.id ∈ st1.seenNodeIDs)).length
        = ((prev.nodes.map (fun n => n.id)).filter
            (fun id => id ∈ dataNodeIds heap rawData showTags)).length := by
      have h0 := congrArg List.length hkeptIds
      simpa [nodeIdsOf] using h0
    have h2 : st1.newNodesData.length
        = ((dataNodeIds heap rawData showTags).filter
            (fun id => id ∉ prev.nodes.map (fun n => n.id))).length := by
      have h0 := congrArg List.length hnewIds
      simpa [nodeIdsOf] using h0
    have hcomm := filter_mem_length_comm (prev.nodes.map (fun n => n.id))
      (dataNodeIds heap rawData showTags)
      (fun id => id ∈ dataNodeIds heap rawData showTags)
      (fun id => id ∈ prev.nodes.map (fun n => n.id))
      (fun x => by simp) (fun x => by simp) hprevNd hids
    have hpart := length_filter_partition
      (fun id => id ∈ prev.nodes.map (fun n => n.id))
      (fun id => id ∉ prev.nodes.map (fun n => n.id))
      (fun a => by by_cases h : a ∈ prev.nodes.map (fun n => n.id) <;> simp [h])
      (dataNodeIds heap rawData showTags)
    rw [h1, h2, hcomm]
    exact hpart
  have hrefs : ∀ k0 : NodeKind, (k0 = .person ∨ k0 = .organization) →
      ∀ a ∈ (prev.nodes.filter (fun n => n.id ∈ st1.seenNodeIDs)
          ++ st1.newNodesData).filterMap
        (fun n => if n.kind = k0 then n.payload.refOpt else none),
      ∃ u, (heap.getP a).profile_url = some u ∧ dashFree u
        ∧ some u ∈ dataNodeIds heap rawData showTags := by
    intro k0 hk0 a ha
    obtain ⟨n, hn, hkind, hpl⟩ := filterMap_kind_mem _ k0 a ha
    rcases List.mem_append.mp hn with hkn | hnn
    · have hnprev : n ∈ prev.nodes := List.mem_of_mem_filter hkn
      have hidin : n.id ∈ st1.seenNodeIDs :=
        of_decide_eq_true (List.mem_filter.mp hkn).2
      rw [hseen1] at hidin
      obtain ⟨r, hplr, hurl⟩ := hprevPayload n hnprev (by rw [hkind]; exact hk0)
      obtain ⟨u, hidu, hdashu⟩ := hprevIds n hnprev
      have har : a = r := NodePayload.profileRef.inj (hpl.symm.trans hplr)
      refine ⟨u, ?_, hdashu, ?_⟩
      · rw [har, hurl, hidu]
      · rw [← hidu]
        exact hidin
    · rw [hnew1] at hnn
      obtain ⟨r, hract, hplr, hidr⟩ := passNewNodes_profile heap
        (prev.nodes.map (fun n => n.id)) showTags rawData n hnn
        (by rw [hkind]; exact hk0)
      have har : a = r := NodePayload.profileRef.inj (hpl.symm.trans hplr)
      obtain ⟨u, hu, hdashu⟩ := hurls r hract
      refine ⟨u, by rw [har]; exact hu, hdashu, ?_⟩
      have hnid : n.id ∈ nodeIdsOf (passNewNodes heap
          (prev.nodes.map (fun n => n.id)) showTags rawData) := by
        rw [nodeIdsOf]
        exact List.mem_map_of_mem _ hnn
      rw [passNewNodes_ids] at hnid
      have h3 := (List.mem_filter.mp hnid).1
      rw [hidr, hu] at h3
      exact h3
  have hrelprem : ∀ l ∈ getLinksFromRelationships heap
      ((prev.nodes.filter (fun n => n.id ∈ st1.seenNodeIDs)
          ++ st1.newNodesData).filterMap
        (fun n => if n.kind = NodeKind.person then n.payload.refOpt else none))
      ((prev.nodes.filter (fun n => n.id ∈ st1.seenNodeIDs)
          ++ st1.newNodesData).filterMap
        (fun n => if n.kind = NodeKind.organization then n.payload.refOpt else none)),
      ∃ u v ty, l = ⟨.str u, .str v, ty⟩ ∧ dashFree u ∧ dashFree v
        ∧ some u ∈ st1.seenNodeIDs ∧ some v ∈ st1.seenNodeIDs := by
    intro l hl
    obtain ⟨a, b, hab, hbb, hsrc, htgt⟩ :=
      getLinksFromRelationships_mem heap _ _ l hl
    have hA : ∃ u, (heap.getP a).profile_url = some u ∧ dashFree u
        ∧ some u ∈ dataNodeIds heap rawData showTags := by
      rcases List.mem_append.mp hab with h | h
      · exact hrefs .person (Or.inl rfl) a h
      · exact hrefs .organization (Or.inr rfl) a h
    have hB : ∃ v, (heap.getP b).profile_url = some v ∧ dashFree v
        ∧ some v ∈ dataNodeIds heap rawData showTags := by
      rcases List.mem_append.mp hbb with h | h
      · exact hrefs .person (Or.inl rfl) b h
      · exact hrefs .organization (Or.inr rfl) b h
    obtain ⟨u, hu, hdu, humem⟩ := hA
    obtain ⟨v, hv, hdv, hvmem⟩ := hB
    refine ⟨u, v, l.ty, ?_, hdu, hdv, by rw [hseen1]; exact humem,
      by rw [hseen1]; exact hvmem⟩
    cases l with
    | mk s t ty =>
      dsimp only at hsrc htgt ⊢
      subst hsrc
      subst htgt
      rw [hu, hv]
      rfl
  have hmain : ∃ st2,
      (if showRelationships then
        (getLinksFromRelationships heap
          ((prev.nodes.filter (fun n => n.id ∈ st1.seenNodeIDs)
              ++ st1.newNodesData).filterMap
            (fun n => if n.kind = NodeKind.person then n.payload.refOpt else none))
          ((prev.nodes.filter (fun n => n.id ∈ st1.seenNodeIDs)
              ++ st1.newNodesData).filterMap
            (fun n => if n.kind = NodeKind.organization then n.payload.refOpt
              else none))).foldlM
          (processRelLink (prev.links.map keyOfResolved)) st1
       else pure st1) = .ok st2
      ∧ st2.heap = st1.heap ∧ st2.seenNodeIDs = st1.seenNodeIDs
      ∧ st2.newNodesData = st1.newNodesData
      ∧ (∀ k ∈ st2.seenLinkIDs, ∃ u ty v, k = mkLinkKey u ty v
          ∧ dashFree u ∧ dashFree v
          ∧ some u ∈ dataNodeIds heap rawData showTags
          ∧ some v ∈ dataNodeIds heap rawData showTags)
      ∧ (∀ l ∈ st2.newLinksData, ∃ u v ty, l = ⟨.str u, .str v, ty⟩
          ∧ some u ∈ dataNodeIds heap rawData showTags
          ∧ some v ∈ dataNodeIds heap rawData showTags) := by
    cases showRelationships with
    | false =>
      refine ⟨st1, ?_, rfl, rfl, rfl, hkinv, hlinv⟩
      rw [if_neg (by simp)]
      rfl
    | true =>
      obtain ⟨st2, hrun2, hh2, hs2, _, hnd2, hk2, hl2⟩ :=
        processRelLink_inv (prev.links.map keyOfResolved) _ st1 hrelprem
      refine ⟨st2, ?_, hh2, hs2, hnd2, ?_, ?_⟩
      · rw [if_pos rfl]
        exact hrun2
      · intro k hk
        rcases hk2 k hk with h | ⟨u, ty, v, hkey, hdu, hdv, hum, hvm⟩
        · exact hkinv k h
        · exact ⟨u, ty, v, hkey, hdu, hdv, by rwa [hseen1] at hum,
            by rwa [hseen1] at hvm⟩
      · intro l hl
        rcases hl2 l hl with h | ⟨u, v, ty, hkey, hum, hvm⟩
        · exact hlinv l h
        · exact ⟨u, v, ty, hkey, by rwa [hseen1] at hum, by rwa [hseen1] at hvm⟩
  obtain ⟨st2, hrel, hh2, hs2, hnd2, hkinv2, hlinv2⟩ := hmain
  refine ⟨st2.heap,
    ⟨prev.nodes.filter (fun n => n.id ∈ st1.seenNodeIDs) ++ st1.newNodesData,
     ((prev.links.zip (prev.links.map keyOfResolved)).filterMap
        (fun lk => if lk.2 ∈ st2.seenLinkIDs then some lk.1 else none)
       ++ st2.newLinksData).map
       (resolveLink (prev.nodes.filter (fun n => n.id ∈ st1.seenNodeIDs)
         ++ st1.newNodesData))⟩, ?_, hc1, ?_, ?_, ?_⟩
  · simp only [setDataReconcile]
    rw [hmapM]
    simp only [Bind.bind, Except.bind]
    rw [hfold]
    simp only [Except.bind]
    rw [hheap1]
    cases showRelationships with
    | false =>
      rw [if_neg (by simp)] at hrel
      rw [if_neg (by simp)]
      have h12 : st1 = st2 := Except.ok.inj hrel
      rw [← h12]
      rfl
    | true =>
      rw [if_pos rfl] at hrel
      rw [if_pos rfl, hrel]
      rfl
  · rw [jsSetDedup_eq_self _ hids]
    exact hlen
  · intro n _ hnot hmem
    exact hnot ((hc1 n.id).mp hmem)
  · intro l hl
    rw [List.mem_map] at hl
    obtain ⟨l0, hl0, hres⟩ := hl
    rcases List.mem_append.mp hl0 with hlk | hln
    · rw [zip_map_filterMap keyOfResolved
        (fun k => k ∈ st2.seenLinkIDs) prev.links] at hlk
      have hl0prev : l0 ∈ prev.links := List.mem_of_mem_filter hlk
      have hl0key : keyOfResolved l0 ∈ st2.seenLinkIDs :=
        of_decide_eq_true (List.mem_filter.mp hlk).2
      obtain ⟨ns, nt, hsrc, htgt, hnsp, hntp⟩ := hprevLinks l0 hl0prev
      obtain ⟨us, hnsid, hdns⟩ := hprevIds ns hnsp
      obtain ⟨vs, hntid, hdnt⟩ := hprevIds nt hntp
      have hkey0 : keyOfResolved l0 = mkLinkKey us l0.ty vs := by
        cases l0 with
        | mk s t ty =>
          dsimp only at hsrc htgt ⊢
          subst hsrc
          subst htgt
          simp [keyOfResolved, hnsid, hntid, idToString]
      obtain ⟨u2, ty2, v2, hkeq, hdu2, hdv2, hum2, hvm2⟩ :=
        hkinv2 (keyOfResolved l0) hl0key
      rw [hkey0] at hkeq
      obtain ⟨hueq, _, hveq⟩ := mkLinkKey_inj us vs u2 v2 l0.ty ty2 hdns hdu2 hkeq
      have hl0eq : l = l0 := by
        rw [← hres, resolveLink_node _ l0 ns hsrc]
      have hnsmem : ns ∈ prev.nodes.filter (fun n => n.id ∈ st1.seenNodeIDs)
          ++ st1.newNodesData := by
        refine List.mem_append.mpr (Or.inl (List.mem_filter.mpr ⟨hnsp, ?_⟩))
        rw [hseen1]
        simp only [decide_eq_true_eq]
        rw [hnsid, hueq]
        exact hum2
      have hntmem : nt ∈ prev.nodes.filter (fun n => n.id ∈ st1.seenNodeIDs)
          ++ st1.newNodesData := by
        refine List.mem_append.mpr (Or.inl (List.mem_filter.mpr ⟨hntp, ?_⟩))
        rw [hseen1]
        simp only [decide_eq_true_eq]
        rw [hntid, hveq]
        exact hvm2
      exact ⟨ns, nt, by rw [hl0eq]; exact hsrc, by rw [hl0eq]; exact htgt,
        hnsmem, hntmem⟩
    · obtain ⟨u, v, ty, hl0eq, hum, hvm⟩ := hlinv2 l0 hln
      obtain ⟨nu, hfindu, hnumem, hnuid⟩ := find?_id_of_mem _ u
        ((hc1 (some u)).mpr hum)
      obtain ⟨nv, hfindv, hnvmem, hnvid⟩ := find?_end_of_mem _ v
        ((hc1 (some v)).mpr hvm)
      have hresv : l = ⟨.node nu, .node nv, ty⟩ := by
        rw [← hres, hl0eq, resolveLink_str _ u v ty nu nv hfindu hfindv]
      exact ⟨nu, nv, by rw [hresv], by rw [hresv], hnumem, hnvmem⟩

/-- C2 counterexample: the claim says that after a pass the live node ids
are exactly the unique ids occurring in the supplied data, with matching
count. Two people named Alice at the distinct urls u1 and u2 refute it:
the duplicate-name merge drops the second record, so the pass leaves one
live node u1 while the supplied data carries the two distinct ids u1 and
u2 (u2 is in the data but not live). -/
theorem C2_counterexample :
    ∃ h2 g2, setDataReconcile [dupAlice1, dupAlice2] ⟨[], []⟩
        [("N", ⟨[0, 1], [], true⟩)] .all false false = .ok (h2, g2)
      ∧ nodeIdsOf g2.nodes = [some "u1"]
      ∧ jsSetDedup (dataNodeIds [dupAlice1, dupAlice2]
          [("N", ⟨[0, 1], [], true⟩)] false) = [some "u1", some "u2"]
      ∧ some "u2" ∉ nodeIdsOf g2.nodes := by
  exact ⟨[mergeRecord dupAlice1 dupAlice2, dupAlice2],
    ⟨[personNodeOf [dupAlice1, dupAlice2] "N" 0], []⟩,
    by rfl, by rfl, by rfl, by decide⟩

/-- Witness for C2 (amended) at a concrete clean input: the single-person
dataset aliceRaw over an empty previous state satisfies every cleanliness
hypothesis and the pass leaves exactly the ids of the supplied data live. -/
theorem C2_amended_witness :
    ((activeRecs aliceRaw).map (fun r => (RecHeap.getP [aliceRec] r).name)).Nodup
    ∧ (dataNodeIds [aliceRec] aliceRaw false).Nodup
    ∧ ∃ h2 g2, setDataReconcile [aliceRec] ⟨[], []⟩ aliceRaw .all false false
        = .ok (h2, g2)
      ∧ (∀ id, id ∈ nodeIdsOf g2.nodes ↔ id ∈ dataNodeIds [aliceRec] aliceRaw false)
      ∧ g2.nodes.length = (jsSetDedup (dataNodeIds [aliceRec] aliceRaw false)).length
      ∧ (∀ n ∈ ([] : List NodeData), n.id ∉ dataNodeIds [aliceRec] aliceRaw false →
          n.id ∉ nodeIdsOf g2.nodes)
      ∧ (∀ l ∈ g2.links, ∃ ns nt, l.source = .node ns ∧ l.target = .node nt
          ∧ ns ∈ g2.nodes ∧ nt ∈ g2.nodes) :=
  ⟨by decide, by decide,
   C2_amended [aliceRec] ⟨[], []⟩ aliceRaw false false
     (by decide)
     (fun r hr => by
       rw [show activeRecs aliceRaw = [0] from rfl, List.mem_singleton] at hr
       subst hr
       exact ⟨"a", rfl, dashFree_of_not_mem _ (by decide)⟩)
     (fun r hr t ht => by
       rw [show activeRecs aliceRaw = [0] from rfl, List.mem_singleton] at hr
       subst hr
       simp [RecHeap.getP, aliceRec] at ht)
     (by decide)
     (fun n hn => by simp at hn)
     (by decide)
     (fun n hn => by simp at hn)
     (fun l hl => by simp at hl)⟩
